import Mathlib

/-!
Verification development for the replicache-client engine: a shallow
embedding of the commit graph, transaction layer, sync engine
(`BeginSync` / `MaybeEndSync`), pull client and keyspace scan, with
theorems checking the natural-language specification against the code.

Modelling conventions:
* The noms store is content addressed, so two commits are identical
  exactly when their contents are equal.  We therefore embed commit
  references by value: a `Ref<Commit>` is the `Commit` itself, hash
  identity (`NomsStruct.Equals`) is structural equality, and the empty
  hash is `none : Option Commit`.
* The keyspace (`kv.Map` of the diff-server dependency) is an ordered
  association list from keys to canonical JSON strings.
* Noms JSON values (`types.Value`) are represented by their canonical
  JSON serialization, a `String`; `nomsjson.ToJSON` is then the
  identity and structural value equality is string equality.
* Network calls are interface calls in the source (`pusher`, `puller`);
  they are embedded as function parameters giving the outcome of the
  call, exactly as the tests substitute fakes.
* Functions that walk the basis chain (`baseSnapshot`,
  `pendingCommits`, ...) are written by structural recursion on the
  commit, with a bridge lemma restating each in terms of
  `Commit.basisE`, the direct translation of `Commit.Basis`.
-/

/-- Canonical JSON text standing for a noms `types.Value`. -/
abbrev NomsValue := String

/-- `kv.Map`: an ordered association list key → canonical JSON value. -/
abbrev KvMap := List (String × String)

/-- Commit record, mirroring `db.Commit`: a parents list, the `Meta`
union (all three variants present as zero-able fields, as in the Go
struct), and the value (data map and checksum).  The variant actually
taken is derived from which fields are set, exactly as `Commit.Type()`
does.  `localOriginal` and `reorderSubject` are hash fields in Go; the
empty hash is the empty list, a set hash is a one-element list. -/
inductive Commit : Type where
  | mk (parents : List Commit)
       (localMutationID : Nat) (localDate : Nat) (localName : String)
       (localArgs : NomsValue) (localOriginal : List Commit)
       (reorderSubject : List Commit)
       (snapLastMutationID : Nat) (snapServerStateID : String)
       (data : KvMap) (checksum : String)

namespace Commit

def parents : Commit → List Commit
  | .mk ps _ _ _ _ _ _ _ _ _ _ => ps

def localMutationID : Commit → Nat
  | .mk _ m _ _ _ _ _ _ _ _ _ => m

def localDate : Commit → Nat
  | .mk _ _ d _ _ _ _ _ _ _ _ => d

def localName : Commit → String
  | .mk _ _ _ n _ _ _ _ _ _ _ => n

def localArgs : Commit → NomsValue
  | .mk _ _ _ _ a _ _ _ _ _ _ => a

def localOriginal : Commit → List Commit
  | .mk _ _ _ _ _ o _ _ _ _ _ => o

def reorderSubject : Commit → List Commit
  | .mk _ _ _ _ _ _ s _ _ _ _ => s

def snapLastMutationID : Commit → Nat
  | .mk _ _ _ _ _ _ _ l _ _ _ => l

def snapServerStateID : Commit → String
  | .mk _ _ _ _ _ _ _ _ s _ _ => s

def data : Commit → KvMap
  | .mk _ _ _ _ _ _ _ _ _ d _ => d

def checksum : Commit → String
  | .mk _ _ _ _ _ _ _ _ _ _ c => c

end Commit

theorem Commit.sizeOf_parents_lt (c : Commit) : sizeOf c.parents < sizeOf c := by
  cases c with
  | mk ps a b n ar o rs l s dt ck =>
    simp only [Commit.parents, Commit.mk.sizeOf_spec]
    omega

theorem Commit.sizeOf_mem_parents {p c : Commit} (h : p ∈ c.parents) :
    sizeOf p < sizeOf c := by
  have hp := List.sizeOf_lt_of_mem h
  have hps := Commit.sizeOf_parents_lt c
  omega

mutual

def Commit.decEq : (c d : Commit) → Decidable (c = d)
  | .mk ps a b n ar o rs l s dt ck, .mk ps' a' b' n' ar' o' rs' l' s' dt' ck' =>
    match Commit.decEqList ps ps' with
    | .isFalse h => .isFalse (by intro he; injection he; subst_vars; exact h rfl)
    | .isTrue hps =>
      if ha : a = a' then
        if hb : b = b' then
          if hn : n = n' then
            if har : ar = ar' then
              match Commit.decEqList o o' with
              | .isFalse h => .isFalse (by intro he; injection he; subst_vars; exact h rfl)
              | .isTrue ho =>
                match Commit.decEqList rs rs' with
                | .isFalse h => .isFalse (by intro he; injection he; subst_vars; exact h rfl)
                | .isTrue hrs =>
                  if hl : l = l' then
                    if hs : s = s' then
                      if hdt : dt = dt' then
                        if hck : ck = ck' then
                          .isTrue (by subst_vars; rfl)
                        else .isFalse (by intro he; injection he; subst_vars; exact hck rfl)
                      else .isFalse (by intro he; injection he; subst_vars; exact hdt rfl)
                    else .isFalse (by intro he; injection he; subst_vars; exact hs rfl)
                  else .isFalse (by intro he; injection he; subst_vars; exact hl rfl)
            else .isFalse (by intro he; injection he; subst_vars; exact har rfl)
          else .isFalse (by intro he; injection he; subst_vars; exact hn rfl)
        else .isFalse (by intro he; injection he; subst_vars; exact hb rfl)
      else .isFalse (by intro he; injection he; subst_vars; exact ha rfl)

def Commit.decEqList : (xs ys : List Commit) → Decidable (xs = ys)
  | [], [] => .isTrue rfl
  | [], _ :: _ => .isFalse (by simp)
  | _ :: _, [] => .isFalse (by simp)
  | x :: xs, y :: ys =>
    match Commit.decEq x y with
    | .isFalse h => .isFalse (by simp [h])
    | .isTrue hx =>
      match Commit.decEqList xs ys with
      | .isFalse h => .isFalse (by simp [h])
      | .isTrue hxs => .isTrue (by rw [hx, hxs])

end

instance : DecidableEq Commit := Commit.decEq

inductive CommitType : Type where
  | snapshot
  | local_
  | reorder
deriving DecidableEq

/-- `Commit.Type()`: local if the local name is set, reorder if the
reorder subject is set, snapshot otherwise. -/
def Commit.type (c : Commit) : CommitType :=
  if c.localName ≠ "" then .local_
  else if c.reorderSubject ≠ [] then .reorder
  else .snapshot

/-- `Commit.MutationID()`. -/
def Commit.mutationID (c : Commit) : Nat :=
  match c.type with
  | .local_ => c.localMutationID
  | .snapshot => c.snapLastMutationID
  | .reorder => 0

/-- `Commit.NextMutationID()`. -/
def Commit.nextMutationID (c : Commit) : Nat :=
  c.mutationID + 1

/-- `Commit.BasisRef()` composed with the read of the target value
(`Commit.Basis`): no parent is an error (unmarshalling the nil basis
value fails), one parent is the basis, two parents (a reorder commit)
yield the parent that is not the subject, and anything else is the
`chk.Fail` path, embedded as an error. -/
def Commit.basisE (c : Commit) : Except String Commit :=
  match c.parents with
  | [] => .error "could not find basis"
  | [p] => .ok p
  | [p, q] =>
    match c.reorderSubject with
    | [s] =>
      if p ≠ s then .ok p
      else if q ≠ s then .ok q
      else .error "unexpected state for commit"
    | _ => .error "unexpected 2-parent type of commit"
  | _ => .error "unexpected number of parents"

theorem Commit.basisE_mem_parents {c b : Commit} (h : c.basisE = .ok b) :
    b ∈ c.parents := by
  unfold Commit.basisE at h
  cases hps : c.parents with
  | nil => rw [hps] at h; exact absurd h (by simp)
  | cons p tl =>
    cases tl with
    | nil =>
      rw [hps] at h
      simp only [Except.ok.injEq] at h
      simp [h]
    | cons q tl2 =>
      cases tl2 with
      | nil =>
        rw [hps] at h
        cases hrs : c.reorderSubject with
        | nil => rw [hrs] at h; exact absurd h (by simp)
        | cons s tls =>
          cases tls with
          | nil =>
            rw [hrs] at h
            by_cases hp : p = s
            · by_cases hq : q = s
              · simp [hp, hq] at h
              · simp only [hp, hq, ne_eq, not_true_eq_false, if_false, not_false_eq_true,
                  if_true, Except.ok.injEq] at h
                simp [h]
            · simp only [hp, ne_eq, not_false_eq_true, if_true, Except.ok.injEq] at h
              simp [h]
          | cons _ _ => rw [hrs] at h; exact absurd h (by simp)
      | cons _ _ => rw [hps] at h; exact absurd h (by simp)

theorem Commit.sizeOf_basisE {c b : Commit} (h : c.basisE = .ok b) :
    sizeOf b < sizeOf c :=
  Commit.sizeOf_mem_parents (Commit.basisE_mem_parents h)

/-- `baseSnapshot`: walk the basis chain until a snapshot is found.
Structurally recursive rendering; `baseSnapshot_eq` below restates it
via `Commit.basisE`. -/
def baseSnapshot (c : Commit) : Except String Commit :=
  if c.type = CommitType.snapshot then .ok c
  else
    match c with
    | .mk [] _ _ _ _ _ _ _ _ _ _ => .error "could not find base snapshot"
    | .mk [p] _ _ _ _ _ _ _ _ _ _ => baseSnapshot p
    | .mk [p, q] _ _ _ _ _ rs _ _ _ _ =>
      match rs with
      | [s] =>
        if p ≠ s then baseSnapshot p
        else if q ≠ s then baseSnapshot q
        else .error "could not find base snapshot"
      | _ => .error "could not find base snapshot"
    | .mk (_ :: _ :: _ :: _) _ _ _ _ _ _ _ _ _ _ => .error "could not find base snapshot"

theorem baseSnapshot_eq (c : Commit) :
    baseSnapshot c =
      if c.type = CommitType.snapshot then .ok c
      else
        match c.basisE with
        | .error _ => .error "could not find base snapshot"
        | .ok b => baseSnapshot b := by
  by_cases ht : c.type = CommitType.snapshot
  · simp [baseSnapshot, ht]
    cases c with
    | mk ps a b n ar o rs l s dt ck =>
      cases ps with
      | nil => simp [baseSnapshot, ht]
      | cons p tl =>
        cases tl with
        | nil => simp [baseSnapshot, ht]
        | cons q tl2 =>
          cases tl2 with
          | nil => simp [baseSnapshot, ht]
          | cons r tl3 => simp [baseSnapshot, ht]
  · cases c with
    | mk ps a b n ar o rs l s dt ck =>
      cases ps with
      | nil => simp [baseSnapshot, Commit.basisE, Commit.parents, ht]
      | cons p tl =>
        cases tl with
        | nil => simp [baseSnapshot, Commit.basisE, Commit.parents, ht]
        | cons q tl2 =>
          cases tl2 with
          | nil =>
            cases rs with
            | nil => simp [baseSnapshot, Commit.basisE, Commit.parents, Commit.reorderSubject, ht]
            | cons sj tls =>
              cases tls with
              | nil =>
                by_cases hp : p = sj
                · by_cases hq : q = sj
                  · simp [baseSnapshot, Commit.basisE, Commit.parents, Commit.reorderSubject,
                      ht, hp, hq]
                  · simp [baseSnapshot, Commit.basisE, Commit.parents, Commit.reorderSubject,
                      ht, hp, hq]
                · simp [baseSnapshot, Commit.basisE, Commit.parents, Commit.reorderSubject,
                    ht, hp]
              | cons _ _ =>
                simp [baseSnapshot, Commit.basisE, Commit.parents, Commit.reorderSubject, ht]
          | cons r tl3 => simp [baseSnapshot, Commit.basisE, Commit.parents, ht]

/-- `pendingCommits`: the commits from the base snapshot (exclusive) to
`head` (inclusive), earliest first.  Structurally recursive rendering;
`pendingCommits_eq` below restates it via `Commit.basisE`. -/
def pendingCommits (head : Commit) : Except String (List Commit) :=
  if head.type = CommitType.snapshot then .ok []
  else
    match head with
    | .mk [] _ _ _ _ _ _ _ _ _ _ => .error "could not find basis"
    | .mk [p] _ _ _ _ _ _ _ _ _ _ =>
      match pendingCommits p with
      | .error e => .error e
      | .ok pending => .ok (pending ++ [head])
    | .mk [p, q] _ _ _ _ _ rs _ _ _ _ =>
      match rs with
      | [s] =>
        if p ≠ s then
          match pendingCommits p with
          | .error e => .error e
          | .ok pending => .ok (pending ++ [head])
        else if q ≠ s then
          match pendingCommits q with
          | .error e => .error e
          | .ok pending => .ok (pending ++ [head])
        else .error "unexpected state for commit"
      | _ => .error "unexpected 2-parent type of commit"
    | .mk (_ :: _ :: _ :: _) _ _ _ _ _ _ _ _ _ _ => .error "unexpected number of parents"

theorem pendingCommits_eq (head : Commit) :
    pendingCommits head =
      if head.type = CommitType.snapshot then .ok []
      else
        match head.basisE with
        | .error e => .error e
        | .ok basis =>
          match pendingCommits basis with
          | .error e => .error e
          | .ok pending => .ok (pending ++ [head]) := by
  by_cases ht : head.type = CommitType.snapshot
  · cases head with
    | mk ps a b n ar o rs l s dt ck =>
      cases ps with
      | nil => simp [pendingCommits, ht]
      | cons p tl =>
        cases tl with
        | nil => simp [pendingCommits, ht]
        | cons q tl2 =>
          cases tl2 with
          | nil => simp [pendingCommits, ht]
          | cons r tl3 => simp [pendingCommits, ht]
  · cases head with
    | mk ps a b n ar o rs l s dt ck =>
      cases ps with
      | nil => simp [pendingCommits, Commit.basisE, Commit.parents, ht]
      | cons p tl =>
        cases tl with
        | nil => simp [pendingCommits, Commit.basisE, Commit.parents, ht]
        | cons q tl2 =>
          cases tl2 with
          | nil =>
            cases rs with
            | nil => simp [pendingCommits, Commit.basisE, Commit.parents, Commit.reorderSubject, ht]
            | cons sj tls =>
              cases tls with
              | nil =>
                by_cases hp : p = sj
                · by_cases hq : q = sj
                  · simp [pendingCommits, Commit.basisE, Commit.parents, Commit.reorderSubject,
                      ht, hp, hq]
                  · simp [pendingCommits, Commit.basisE, Commit.parents, Commit.reorderSubject,
                      ht, hp, hq]
                · simp [pendingCommits, Commit.basisE, Commit.parents, Commit.reorderSubject,
                    ht, hp]
              | cons _ _ =>
                simp [pendingCommits, Commit.basisE, Commit.parents, Commit.reorderSubject, ht]
          | cons r tl3 => simp [pendingCommits, Commit.basisE, Commit.parents, ht]

mutual

/-- All commits reachable from `c` along parent edges, `c` included. -/
def ancestorList : Commit → List Commit
  | .mk ps a b n ar o rs l s dt ck =>
    Commit.mk ps a b n ar o rs l s dt ck :: ancestorListAll ps

def ancestorListAll : List Commit → List Commit
  | [] => []
  | p :: ps => ancestorList p ++ ancestorListAll ps

end

/-- Rendering of a commit's content hash in log/error messages.  The
actual hash function lives in the external noms library; its value is
never load bearing, only the surrounding message text is. -/
def hashString (_ : Commit) : String := "<hash>"

/-- `nomsjson.ToJSON` on an already canonical value. -/
def nomsToJSON (v : NomsValue) : String := v

/-- Database state: the master head and the set of values written to
the backing noms store (commits only; the store is append only). -/
structure DB where
  head : Commit
  written : List Commit
deriving DecidableEq

/-- `ReadCommit`: the empty hash errors, otherwise the commit must be
present in the store. -/
def readCommit (db : DB) (h : Option Commit) : Except String Commit :=
  match h with
  | none => .error "commit (empty hash) not found"
  | some c =>
    if c ∈ db.written then .ok c
    else .error ("commit " ++ hashString c ++ " not found")

/-- `makeSnapshot`. -/
def makeSnapshot (basis : Commit) (serverStateID : String) (dataRef : KvMap)
    (checksum : String) (lastMutationID : Nat) : Commit :=
  .mk [basis] 0 0 "" "" [] [] lastMutationID serverStateID dataRef checksum

/-- `makeGenesis`: the first snapshot, with no parents. -/
def makeGenesis (serverStateID : String) (dataRef : KvMap)
    (checksum : String) (lastMutationID : Nat) : Commit :=
  .mk [] 0 0 "" "" [] [] lastMutationID serverStateID dataRef checksum

/-- `makeLocal`. -/
def makeLocal (basis : Commit) (d : Nat) (mutationID : Nat) (f : String)
    (args : NomsValue) (newData : KvMap) (checksum : String) : Commit :=
  .mk [basis] mutationID d f args [] [] 0 "" newData checksum

/-- `makeReplayedLocal`. -/
def makeReplayedLocal (basis : Commit) (d : Nat) (mutationID : Nat) (f : String)
    (args : NomsValue) (newData : KvMap) (checksum : String) (original : Commit) : Commit :=
  .mk [basis] mutationID d f args [original] [] 0 "" newData checksum

/-- `servetypes.ClientViewInfo`. -/
structure ClientViewInfo where
  httpStatusCode : Nat
  errorMessage : String
deriving DecidableEq

/-- `db.MutationInfo`. -/
structure MutationInfo where
  id : Nat
  error : String
deriving DecidableEq

/-- `db.BatchPushResponse`. -/
structure BatchPushResponse where
  mutationInfos : List MutationInfo
deriving DecidableEq

/-- `db.BatchPushInfo`. -/
structure BatchPushInfo where
  httpStatusCode : Nat
  errorMessage : String
  batchPushResponse : BatchPushResponse
deriving DecidableEq

/-- `db.SyncInfo`. -/
structure SyncInfo where
  syncID : String
  batchPushInfo : Option BatchPushInfo
  clientViewInfo : ClientViewInfo
deriving DecidableEq

/-- `db.Mutation`. -/
structure Mutation where
  id : Nat
  name : String
  args : String
deriving DecidableEq

/-- `db.ReplayMutation`: a mutation plus the hash of the original
pending commit it replays. -/
structure ReplayMutation extends Mutation where
  original : Option Commit
deriving DecidableEq

/-- The `Local` part of a commit's meta, as passed to the pusher. -/
structure LocalMeta where
  mutationID : Nat
  date : Nat
  name : String
  args : NomsValue
  original : List Commit
deriving DecidableEq

def Commit.metaLocal (c : Commit) : LocalMeta :=
  ⟨c.localMutationID, c.localDate, c.localName, c.localArgs, c.localOriginal⟩

/-- `filterIDsLessThanOrEqualTo`: keep the commits whose mutation ID is
strictly greater than `filter`. -/
def filterIDsLessThanOrEqualTo : List Commit → Nat → List Commit
  | [], _ => []
  | c :: rest, filter =>
    if c.mutationID > filter then c :: filterIDsLessThanOrEqualTo rest filter
    else filterIDsLessThanOrEqualTo rest filter

/-- Rendering of a pending commit as a `ReplayMutation`, as built in
the loop of `MaybeEndSync`. -/
def toReplayMutation (c : Commit) : ReplayMutation :=
  { id := c.localMutationID
    name := c.localName
    args := nomsToJSON c.localArgs
    original := some c }

/-- `DB.MaybeEndSync` (current version, from the sync source file that
takes a `syncID`): read the sync head, detect an interleaved sync via
the sync snapshot's basis, emit replay mutations for pending commits
with larger mutation IDs, and otherwise finalize by setting the head
to the sync head. -/
def maybeEndSync (db : DB) (syncHead : Option Commit) :
    Except String (List ReplayMutation) × DB :=
  match readCommit db syncHead with
  | .error e => (.error e, db)
  | .ok syncHeadCommit =>
    let head := db.head
    match baseSnapshot syncHeadCommit with
    | .error e => (.error e, db)
    | .ok syncSnapshot =>
      match syncSnapshot.basisE with
      | .error e => (.error e, db)
      | .ok syncSnapshotBasis =>
        match baseSnapshot head with
        | .error e => (.error e, db)
        | .ok headSnapshot =>
          if syncSnapshotBasis ≠ headSnapshot then
            (.error ("found a newer snapshot " ++ hashString headSnapshot ++ " on master"), db)
          else
            match pendingCommits head with
            | .error e => (.error e, db)
            | .ok pending =>
              let commitsToReplay := filterIDsLessThanOrEqualTo pending syncHeadCommit.mutationID
              if commitsToReplay ≠ [] then
                (.ok (commitsToReplay.map toReplayMutation), db)
              else
                (.ok [], { db with head := syncHeadCommit })

/-- `DB.BeginSync` (current version): push pending mutations (outcome
recorded, never fatal), pull a new snapshot via the diff server, and on
new data write the snapshot commit, returning its hash as the sync
head.  The pusher and puller are interface fields in the source; they
are embedded as the functions `pushF` and `pullF` giving the outcome of
the respective network call. -/
def beginSync (db : DB) (diffServerURL : String) (syncID : String)
    (pushF : List LocalMeta → BatchPushInfo)
    (pullF : Commit → Except String (Commit × ClientViewInfo)) :
    Except String (Option Commit) × SyncInfo × DB :=
  let syncInfo : SyncInfo := { syncID := syncID, batchPushInfo := none, clientViewInfo := ⟨0, ""⟩ }
  let head := db.head
  match pendingCommits head with
  | .error e => (.error e, syncInfo, db)
  | .ok pending =>
    let syncInfo :=
      if pending.length > 0 then
        { syncInfo with batchPushInfo := some (pushF (pending.map Commit.metaLocal)) }
      else syncInfo
    match baseSnapshot head with
    | .error e => (.error ("could not find head snapshot: " ++ e), syncInfo, db)
    | .ok headSnapshot =>
      match pullF headSnapshot with
      | .error e => (.error ("pull from " ++ diffServerURL ++ " failed: " ++ e), syncInfo, db)
      | .ok (newSnapshot, clientViewInfo) =>
        let syncInfo := { syncInfo with clientViewInfo := clientViewInfo }
        if newSnapshot.snapServerStateID = headSnapshot.snapServerStateID then
          (.ok none, syncInfo, db)
        else
          (.ok (some newSnapshot), syncInfo, { db with written := newSnapshot :: db.written })

instance {ε α : Type} [DecidableEq ε] [DecidableEq α] : DecidableEq (Except ε α) := fun a b =>
  match a, b with
  | .ok x, .ok y =>
    if h : x = y then .isTrue (by rw [h]) else .isFalse (by simp [h])
  | .error e, .error f =>
    if h : e = f then .isTrue (by rw [h]) else .isFalse (by simp [h])
  | .ok _, .error _ => .isFalse (by simp)
  | .error _, .ok _ => .isFalse (by simp)

/-- `s` contains `sub` as a substring. -/
def strContains (s sub : String) : Prop := ∃ a b, s = a ++ sub ++ b

/-- Spec invariant 2 (`§8`): along the basis chain, mutation IDs are
strictly increasing, down to a base snapshot.  This is the reachable
state invariant maintained by `Transaction.Commit` (which uses
`basis.NextMutationID()`) and by pull (which keeps `lastMutationID`
monotone).  Structural rendering; `mutAscending_eq` restates it via
`Commit.basisE`. -/
def mutAscending (c : Commit) : Bool :=
  if c.type = CommitType.snapshot then true
  else
    match c with
    | .mk [] _ _ _ _ _ _ _ _ _ _ => false
    | .mk [p] _ _ _ _ _ _ _ _ _ _ => decide (p.mutationID < c.mutationID) && mutAscending p
    | .mk [p, q] _ _ _ _ _ rs _ _ _ _ =>
      match rs with
      | [s] =>
        if p ≠ s then decide (p.mutationID < c.mutationID) && mutAscending p
        else if q ≠ s then decide (q.mutationID < c.mutationID) && mutAscending q
        else false
      | _ => false
    | .mk (_ :: _ :: _ :: _) _ _ _ _ _ _ _ _ _ _ => false

theorem mutAscending_eq (c : Commit) :
    mutAscending c =
      if c.type = CommitType.snapshot then true
      else
        match c.basisE with
        | .error _ => false
        | .ok b => decide (b.mutationID < c.mutationID) && mutAscending b := by
  by_cases ht : c.type = CommitType.snapshot
  · cases c with
    | mk ps a b n ar o rs l s dt ck =>
      cases ps with
      | nil => simp [mutAscending, ht]
      | cons p tl =>
        cases tl with
        | nil => simp [mutAscending, ht]
        | cons q tl2 =>
          cases tl2 with
          | nil => simp [mutAscending, ht]
          | cons r tl3 => simp [mutAscending, ht]
  · cases c with
    | mk ps a b n ar o rs l s dt ck =>
      cases ps with
      | nil => simp [mutAscending, Commit.basisE, Commit.parents, ht]
      | cons p tl =>
        cases tl with
        | nil => simp [mutAscending, Commit.basisE, Commit.parents, ht]
        | cons q tl2 =>
          cases tl2 with
          | nil =>
            cases rs with
            | nil => simp [mutAscending, Commit.basisE, Commit.parents, Commit.reorderSubject, ht]
            | cons sj tls =>
              cases tls with
              | nil =>
                by_cases hp : p = sj
                · by_cases hq : q = sj
                  · simp [mutAscending, Commit.basisE, Commit.parents, Commit.reorderSubject,
                      ht, hp, hq]
                  · simp [mutAscending, Commit.basisE, Commit.parents, Commit.reorderSubject,
                      ht, hp, hq]
                · simp [mutAscending, Commit.basisE, Commit.parents, Commit.reorderSubject,
                    ht, hp]
              | cons _ _ =>
                simp [mutAscending, Commit.basisE, Commit.parents, Commit.reorderSubject, ht]
          | cons r tl3 => simp [mutAscending, Commit.basisE, Commit.parents, ht]

theorem sizeOf_commit_pos (c : Commit) : 1 ≤ sizeOf c := by
  cases c with
  | mk ps a b n ar o rs l s dt ck =>
    simp only [Commit.mk.sizeOf_spec]
    omega

/-- Under the mutation-ID invariant, `pendingCommits` returns only
local commits, all with mutation IDs at most the head's, in strictly
ascending order. -/
theorem pendingCommits_props :
    ∀ (n : Nat) (head : Commit), sizeOf head ≤ n → mutAscending head = true →
      ∀ pending, pendingCommits head = .ok pending →
        (∀ x ∈ pending, x.type = CommitType.local_ ∧ x.mutationID ≤ head.mutationID) ∧
        List.Pairwise (fun a b => a.mutationID < b.mutationID) pending := by
  intro n
  induction n with
  | zero =>
    intro head hsz
    have := sizeOf_commit_pos head
    omega
  | succ n ih =>
    intro head hsz hasc pending hp
    rw [pendingCommits_eq] at hp
    rw [mutAscending_eq] at hasc
    by_cases ht : head.type = CommitType.snapshot
    · rw [if_pos ht] at hp
      simp only [Except.ok.injEq] at hp
      subst hp
      simp
    · rw [if_neg ht] at hp
      rw [if_neg ht] at hasc
      split at hp
      · exact absurd hp (by simp)
      · next basis hb =>
        rw [hb] at hasc
        simp only [Bool.and_eq_true, decide_eq_true_eq] at hasc
        obtain ⟨hlt, hascb⟩ := hasc
        split at hp
        · exact absurd hp (by simp)
        · next pb hpb =>
          simp only [Except.ok.injEq] at hp
          subst hp
          have hszb : sizeOf basis ≤ n := by
            have := Commit.sizeOf_basisE hb
            omega
          obtain ⟨hmem, hpair⟩ := ih basis hszb hascb pb hpb
          have hheadlocal : head.type = CommitType.local_ := by
            cases htt : head.type with
            | snapshot => exact absurd htt ht
            | local_ => rfl
            | reorder =>
              simp only [Commit.mutationID, htt] at hlt
              omega
          constructor
          · intro x hx
            rcases List.mem_append.mp hx with hx | hx
            · obtain ⟨hl, hle⟩ := hmem x hx
              exact ⟨hl, by omega⟩
            · simp only [List.mem_singleton] at hx
              subst hx
              exact ⟨hheadlocal, le_refl _⟩
          · rw [List.pairwise_append]
            refine ⟨hpair, by simp, ?_⟩
            intro a ha b hbm
            simp only [List.mem_singleton] at hbm
            subst hbm
            have := (hmem a ha).2
            omega

theorem filterIDs_eq_filter (l : List Commit) (f : Nat) :
    filterIDsLessThanOrEqualTo l f = l.filter (fun c => decide (f < c.mutationID)) := by
  induction l with
  | nil => rfl
  | cons c rest ih =>
    by_cases h : f < c.mutationID
    · simp [filterIDsLessThanOrEqualTo, h, ih]
    · simp [filterIDsLessThanOrEqualTo, h, ih]

/-- `pendingCommits` succeeds with the empty list exactly on snapshot
commits. -/
theorem pendingCommits_nil_iff {head : Commit} {pending : List Commit}
    (h : pendingCommits head = .ok pending) :
    pending = [] ↔ head.type = CommitType.snapshot := by
  rw [pendingCommits_eq] at h
  by_cases ht : head.type = CommitType.snapshot
  · rw [if_pos ht] at h
    simp only [Except.ok.injEq] at h
    subst h
    simp [ht]
  · rw [if_neg ht] at h
    simp only [ht, iff_false]
    split at h
    · exact absurd h (by simp)
    · split at h
      · exact absurd h (by simp)
      · simp only [Except.ok.injEq] at h
        subst h
        simp

theorem Commit.localMutationID_eq_mutationID {c : Commit} (h : c.type = CommitType.local_) :
    c.localMutationID = c.mutationID := by
  simp [Commit.mutationID, h]

/-- C1: when the sync head resolves and the fork-detection check
passes, `MaybeEndSync` returns exactly the pending commits with
mutation ID strictly greater than the sync head's, rendered as
`ReplayMutation`s (id, name, canonical JSON args, original hash), in
ascending mutation-ID order; the list is empty exactly when no pending
commit has a larger mutation ID. -/
theorem maybeEndSync_replay_list (db : DB) (sh : Option Commit)
    (SHc ss ssb hs : Commit) (pending : List Commit)
    (h1 : readCommit db sh = .ok SHc)
    (h2 : baseSnapshot SHc = .ok ss)
    (h3 : ss.basisE = .ok ssb)
    (h4 : baseSnapshot db.head = .ok hs)
    (h5 : ssb = hs)
    (h6 : pendingCommits db.head = .ok pending)
    (h7 : mutAscending db.head = true) :
    (maybeEndSync db sh).1 =
      .ok ((pending.filter (fun c => decide (SHc.mutationID < c.mutationID))).map toReplayMutation) ∧
    List.Pairwise (fun a b => a.id < b.id)
      ((pending.filter (fun c => decide (SHc.mutationID < c.mutationID))).map toReplayMutation) ∧
    (((pending.filter (fun c => decide (SHc.mutationID < c.mutationID))).map toReplayMutation) = []
      ↔ ∀ c ∈ pending, c.mutationID ≤ SHc.mutationID) := by
  subst h5
  have hfe := filterIDs_eq_filter pending SHc.mutationID
  obtain ⟨hmem, hpair⟩ := pendingCommits_props (sizeOf db.head) db.head le_rfl h7 pending h6
  refine ⟨?_, ?_, ?_⟩
  · by_cases hf : pending.filter (fun c => decide (SHc.mutationID < c.mutationID)) = []
    · simp [maybeEndSync, h1, h2, h3, h4, h6, hfe, hf]
    · simp [maybeEndSync, h1, h2, h3, h4, h6, hfe, hf]
  · rw [List.pairwise_map]
    have hps : List.Pairwise (fun a b => a.mutationID < b.mutationID)
        (pending.filter (fun c => decide (SHc.mutationID < c.mutationID))) :=
      hpair.filter _
    refine hps.imp_of_mem ?_
    intro a b ha hb hlt
    have hal : a.type = CommitType.local_ := (hmem a (List.mem_of_mem_filter ha)).1
    have hbl : b.type = CommitType.local_ := (hmem b (List.mem_of_mem_filter hb)).1
    show (toReplayMutation a).id < (toReplayMutation b).id
    simp only [toReplayMutation]
    rw [Commit.localMutationID_eq_mutationID hal, Commit.localMutationID_eq_mutationID hbl]
    exact hlt
  · rw [List.map_eq_nil_iff, List.filter_eq_nil_iff]
    simp

/- Concrete scenario commits shared by several checks: a genesis
snapshot, one pending local mutation, the sync snapshot created by a
pull, a replay of the local mutation onto the sync branch, and an
unrelated snapshot landed by an interleaved sync. -/

def wSS1 : Commit := makeGenesis "" [] "00000000" 0

def wL1 : Commit := makeLocal wSS1 1 1 "m" "[]" [("k", "1")] "c1"

def wSS2 : Commit := makeSnapshot wSS1 "s1" [] "00000000" 0

def wL1r : Commit := makeReplayedLocal wSS2 2 1 "m" "[]" [("k", "1")] "c1" wL1

def wSS3 : Commit := makeSnapshot wSS1 "s2" [] "00000000" 0

def wDB1 : DB := { head := wL1, written := [wSS1, wL1, wSS2] }

def wDB2 : DB := { head := wSS3, written := [wSS1, wL1, wSS2, wSS3] }

def wDB3 : DB := { head := wL1, written := [wSS1, wL1, wSS2, wL1r] }

theorem maybeEndSync_replay_list_witness :
    mutAscending wDB1.head = true ∧
    (maybeEndSync wDB1 (some wSS2)).1 =
      .ok ((([wL1]).filter (fun c => decide (wSS2.mutationID < c.mutationID))).map toReplayMutation) :=
  ⟨rfl, (maybeEndSync_replay_list wDB1 (some wSS2) wSS2 wSS2 wSS1 wSS1 [wL1]
    rfl rfl rfl rfl rfl rfl rfl).1⟩

/-- C3: when the master's base snapshot is no longer the sync
snapshot's basis, `MaybeEndSync` fails with a message containing
"found a newer snapshot" and "on master", returns no replay mutations,
and leaves the database (in particular the head) unchanged. -/
theorem maybeEndSync_newer_snapshot (db : DB) (sh : Option Commit)
    (SHc ss ssb hs : Commit)
    (h1 : readCommit db sh = .ok SHc)
    (h2 : baseSnapshot SHc = .ok ss)
    (h3 : ss.basisE = .ok ssb)
    (h4 : baseSnapshot db.head = .ok hs)
    (h5 : ssb ≠ hs) :
    ∃ msg, maybeEndSync db sh = (.error msg, db) ∧
      strContains msg "found a newer snapshot" ∧ strContains msg "on master" := by
  refine ⟨"found a newer snapshot " ++ hashString hs ++ " on master", ?_, ?_, ?_⟩
  · simp [maybeEndSync, h1, h2, h3, h4, h5]
  · refine ⟨"", " " ++ hashString hs ++ " on master", ?_⟩
    rw [String.append_assoc]
    have h0 : ("" : String) ++ "found a newer snapshot" = "found a newer snapshot" := rfl
    rw [h0]
    have hsp : ("found a newer snapshot " : String) = "found a newer snapshot" ++ " " := rfl
    rw [hsp, String.append_assoc, String.append_assoc]
  · refine ⟨"found a newer snapshot " ++ hashString hs ++ " ", "", ?_⟩
    rw [String.append_empty]
    have hsp : (" on master" : String) = " " ++ "on master" := rfl
    rw [String.append_assoc, hsp, ← String.append_assoc, ← String.append_assoc]

theorem maybeEndSync_newer_snapshot_witness :
    wSS1 ≠ wSS3 ∧
    (∃ msg, maybeEndSync wDB2 (some wSS2) = (.error msg, wDB2) ∧
      strContains msg "found a newer snapshot" ∧ strContains msg "on master") :=
  ⟨by decide, maybeEndSync_newer_snapshot wDB2 (some wSS2) wSS2 wSS2 wSS1 wSS3
    rfl rfl rfl rfl (by decide)⟩

/- Keyspace model.  The `kv` package lives in the external diff-server
module; the following definitions are modelled from the spec (§4.1):
an ordered map with an 8-hex-digit running checksum and JSON-patch
application. -/

/-- Lexicographic comparison of character lists; keys compare
bytewise (§3). -/
def chLt : List Char → List Char → Bool
  | [], [] => false
  | [], _ :: _ => true
  | _ :: _, [] => false
  | c :: cs, d :: ds => if c < d then true else if d < c then false else chLt cs ds

/-- Strict key order. -/
def strLt (a b : String) : Bool := chLt a.data b.data

/-- Key lookup in the ordered association list. -/
def kvHasKey (m : KvMap) (k : String) : Bool :=
  m.any (fun e => e.1 == k)

/-- Sorted insert-or-replace, keeping keys strictly ascending. -/
def kvSet (m : KvMap) (k v : String) : KvMap :=
  match m with
  | [] => [(k, v)]
  | (k', v') :: rest =>
    if strLt k k' then (k, v) :: (k', v') :: rest
    else if k = k' then (k, v) :: rest
    else (k', v') :: kvSet rest k v

/-- Remove a key. -/
def kvRemove (m : KvMap) (k : String) : KvMap :=
  match m with
  | [] => []
  | (k', v') :: rest =>
    if k = k' then rest
    else (k', v') :: kvRemove rest k

/-- Modelled from the spec: `H(k, v)`, a 32-bit hash of the
canonicalized pair.  The spec fixes only that it is a 32-bit hash; any
concrete choice works since checksums are only ever compared. -/
def pairHash (k v : String) : Nat :=
  (k.data.foldl (fun h c => (h * 31 + c.toNat) % 4294967296) 17 * 131 +
   v.data.foldl (fun h c => (h * 31 + c.toNat) % 4294967296) 13) % 4294967296

def hexDigit (n : Nat) : Char :=
  if n < 10 then Char.ofNat (48 + n) else Char.ofNat (87 + n)

/-- 8 lowercase hex digits of a 32-bit value. -/
def toHex8 (n : Nat) : String :=
  String.mk [hexDigit (n / 16 ^ 7 % 16), hexDigit (n / 16 ^ 6 % 16),
    hexDigit (n / 16 ^ 5 % 16), hexDigit (n / 16 ^ 4 % 16),
    hexDigit (n / 16 ^ 3 % 16), hexDigit (n / 16 ^ 2 % 16),
    hexDigit (n / 16 % 16), hexDigit (n % 16)]

/-- Modelled from the spec: the running checksum is the XOR over the
entries of `H(k, v)`, rendered as 8 hex digits; the empty map has
checksum `"00000000"`. -/
def mapChecksum (m : KvMap) : String :=
  toHex8 (m.foldl (fun acc e => Nat.xor acc (pairHash e.1 e.2)) 0)

def hexVal (c : Char) : Option Nat :=
  if 48 ≤ c.toNat ∧ c.toNat ≤ 57 then some (c.toNat - 48)
  else if 97 ≤ c.toNat ∧ c.toNat ≤ 102 then some (c.toNat - 87)
  else none

/-- Modelled from the spec: `kv.ChecksumFromString` parses an
8-hex-digit checksum, failing on anything else. -/
def checksumFromString (s : String) : Except String Nat :=
  if s.length ≠ 8 then .error ("invalid checksum: " ++ s)
  else
    match s.data.mapM hexVal with
    | none => .error ("invalid checksum: " ++ s)
    | some ds => .ok (ds.foldl (fun acc d => acc * 16 + d) 0)

/-- One JSON-patch operation of the pull protocol. -/
structure PatchOp where
  op : String
  path : String
  value : String
deriving DecidableEq

/-- Modelled from the spec (§4.1, `apply_patch`): `add`/`replace` set
the key at `"/" + key`; `remove` of `"/" + key` removes it, erring on a
missing key; `remove` of `"/"` clears the whole map but only as the
first operation; other ops fail with "invalid op", paths not starting
with "/" fail with "invalid path". -/
def applyPatchOps (m : KvMap) (isFirst : Bool) : List PatchOp → Except String KvMap
  | [] => .ok m
  | o :: rest =>
    match o.path.data with
    | [] => .error ("invalid path: " ++ o.path)
    | c :: cs =>
      if c ≠ '/' then .error ("invalid path: " ++ o.path)
      else
        let key := String.mk cs
        if o.op = "add" ∨ o.op = "replace" then
          applyPatchOps (kvSet m key o.value) false rest
        else if o.op = "remove" then
          if key = "" then
            if isFirst then applyPatchOps [] false rest
            else .error "remove of entire map must be first operation"
          else if kvHasKey m key then
            applyPatchOps (kvRemove m key) false rest
          else .error ("cannot remove missing key: " ++ key)
        else .error ("invalid op: " ++ o.op)

def applyPatch (m : KvMap) (patch : List PatchOp) : Except String KvMap :=
  applyPatchOps m true patch

/-- `servetypes.PullResponse` after JSON decoding. -/
structure PullResponse where
  stateID : String
  lastMutationID : Nat
  patch : List PatchOp
  checksum : String
  clientViewInfo : ClientViewInfo
deriving DecidableEq

/-- `defaultPuller.Pull` from the pull source file, after transport and
JSON decoding succeeded with the parsed `resp` (transport failures,
non-200 responses and JSON decode failures are `.error` results of the
puller at the `beginSync` level): check mutation-ID monotonicity, apply
the patch to the base snapshot's map, verify the checksum, and build
the new snapshot commit with the response's state ID. -/
def pullClient (baseState : Commit) (resp : PullResponse) :
    Except String (Commit × ClientViewInfo) :=
  if resp.lastMutationID < baseState.snapLastMutationID then
    .error ("client view lastMutationID " ++ toString resp.lastMutationID ++
      " is < previous lastMutationID " ++ toString baseState.snapLastMutationID ++ "; ignoring")
  else
    match applyPatch baseState.data resp.patch with
    | .error e => .error ("couldn't apply patch: " ++ e)
    | .ok patchedMap =>
      match checksumFromString resp.checksum with
      | .error e => .error ("response checksum malformed: " ++ e)
      | .ok expectedChecksum =>
        if mapChecksum patchedMap ≠ toHex8 expectedChecksum then
          .error ("checksum mismatch! Expected " ++ toHex8 expectedChecksum ++
            ", got " ++ mapChecksum patchedMap)
        else
          .ok (makeSnapshot baseState resp.stateID patchedMap (mapChecksum patchedMap)
                resp.lastMutationID,
               resp.clientViewInfo)

/-- Pull response used in concrete sync scenarios: new state "s1",
empty patch over the empty base map. -/
def wResp : PullResponse :=
  { stateID := "s1", lastMutationID := 0, patch := [], checksum := "00000000",
    clientViewInfo := ⟨200, ""⟩ }

/-- C2 counterexample: after the caller replayed mutation 1 onto the
sync branch and advanced the sync head to the replay tip `wL1r`,
`MaybeEndSync` returns `[]` and finalizes, but the replayed local
commit is still a pending commit of the new head, so
`pending_commits(head())` is not empty. -/
theorem maybeEndSync_finalize_counterexample :
    pullClient wSS1 wResp = .ok (wSS2, ⟨200, ""⟩) ∧
    (maybeEndSync wDB3 (some wL1r)).1 = .ok [] ∧
    pendingCommits (maybeEndSync wDB3 (some wL1r)).2.head ≠ .ok [] ∧
    baseSnapshot (maybeEndSync wDB3 (some wL1r)).2.head = .ok wSS2 :=
  ⟨rfl, rfl, by decide, rfl⟩

/-- C2, amended: when `MaybeEndSync` returns `[]` with no error, the
head becomes the passed sync head, whose base snapshot is the pulled
snapshot, so `base_snapshot(head()).serverStateID` equals the pulled
state ID; `pending_commits(head())` consists of the commits replayed
onto the sync branch and is empty exactly when the sync head is the
sync snapshot itself. -/
theorem maybeEndSync_finalize (db : DB) (sh : Option Commit)
    (SHc ss ssb hs BS : Commit) (pending : List Commit)
    (resp : PullResponse) (cvi : ClientViewInfo)
    (h1 : readCommit db sh = .ok SHc)
    (h2 : baseSnapshot SHc = .ok ss)
    (h3 : ss.basisE = .ok ssb)
    (h4 : baseSnapshot db.head = .ok hs)
    (h5 : ssb = hs)
    (h6 : pendingCommits db.head = .ok pending)
    (hpull : pullClient BS resp = .ok (ss, cvi))
    (hend : (maybeEndSync db sh).1 = .ok []) :
    (maybeEndSync db sh).2.head = SHc ∧
    baseSnapshot (maybeEndSync db sh).2.head = .ok ss ∧
    ss.snapServerStateID = resp.stateID ∧
    (pendingCommits (maybeEndSync db sh).2.head = .ok [] ↔
      SHc.type = CommitType.snapshot) := by
  subst h5
  have hsid : ss.snapServerStateID = resp.stateID := by
    unfold pullClient at hpull
    split at hpull
    · exact absurd hpull (by simp)
    · split at hpull
      · exact absurd hpull (by simp)
      · split at hpull
        · exact absurd hpull (by simp)
        · split at hpull
          · exact absurd hpull (by simp)
          · simp only [Except.ok.injEq, Prod.mk.injEq] at hpull
            obtain ⟨hss, _⟩ := hpull
            subst hss
            simp [makeSnapshot, Commit.snapServerStateID]
  by_cases hf : filterIDsLessThanOrEqualTo pending SHc.mutationID = []
  · have hme : maybeEndSync db sh = (.ok [], { db with head := SHc }) := by
      simp [maybeEndSync, h1, h2, h3, h4, h6, hf]
    rw [hme]
    refine ⟨rfl, h2, hsid, ?_⟩
    constructor
    · intro hpc
      exact (pendingCommits_nil_iff hpc).mp rfl
    · intro ht
      rw [pendingCommits_eq]
      simp [ht]
  · exfalso
    have hres : (maybeEndSync db sh).1 =
        .ok ((filterIDsLessThanOrEqualTo pending SHc.mutationID).map toReplayMutation) := by
      simp [maybeEndSync, h1, h2, h3, h4, h6, hf]
    rw [hres] at hend
    simp only [Except.ok.injEq, List.map_eq_nil_iff] at hend
    exact hf hend

theorem maybeEndSync_finalize_witness :
    (maybeEndSync wDB3 (some wL1r)).1 = .ok [] ∧
    ((maybeEndSync wDB3 (some wL1r)).2.head = wL1r ∧
     baseSnapshot (maybeEndSync wDB3 (some wL1r)).2.head = .ok wSS2 ∧
     wSS2.snapServerStateID = wResp.stateID ∧
     (pendingCommits (maybeEndSync wDB3 (some wL1r)).2.head = .ok [] ↔
       wL1r.type = CommitType.snapshot)) :=
  ⟨rfl, maybeEndSync_finalize wDB3 (some wL1r) wL1r wSS2 wSS1 wSS1 wSS1 [wL1]
    wResp ⟨200, ""⟩ rfl rfl rfl rfl rfl rfl rfl rfl⟩

/-- C4: when pull succeeds and the response's state ID equals the base
snapshot's server state ID, `BeginSync` returns a zero sync head with
populated `SyncInfo` and no error, and the database is unchanged. -/
theorem beginSync_no_new_data (db : DB) (u sid : String)
    (pushF : List LocalMeta → BatchPushInfo)
    (pullF : Commit → Except String (Commit × ClientViewInfo))
    (pending : List Commit) (BS ns : Commit) (cvi : ClientViewInfo)
    (hp : pendingCommits db.head = .ok pending)
    (hbs : baseSnapshot db.head = .ok BS)
    (hpull : pullF BS = .ok (ns, cvi))
    (hsame : ns.snapServerStateID = BS.snapServerStateID) :
    beginSync db u sid pushF pullF =
      (.ok none,
       { syncID := sid,
         batchPushInfo :=
           if pending.length > 0 then some (pushF (pending.map Commit.metaLocal)) else none,
         clientViewInfo := cvi },
       db) := by
  by_cases hl : pending.length > 0
  · simp [beginSync, hp, hbs, hpull, hsame, hl]
  · simp [beginSync, hp, hbs, hpull, hsame, hl]

/-- Pull response reporting the same state ID as the genesis snapshot
(no new data). -/
def wRespNoNew : PullResponse :=
  { stateID := "", lastMutationID := 0, patch := [], checksum := "00000000",
    clientViewInfo := ⟨200, ""⟩ }

def wSS0 : Commit := makeSnapshot wSS1 "" [] "00000000" 0

def wDB0 : DB := { head := wSS1, written := [wSS1] }

theorem beginSync_no_new_data_witness :
    pullClient wSS1 wRespNoNew = .ok (wSS0, ⟨200, ""⟩) ∧
    beginSync wDB0 "u" "sid" (fun _ => ⟨0, "", ⟨[]⟩⟩) (fun bs => pullClient bs wRespNoNew) =
      (.ok none, { syncID := "sid", batchPushInfo := none, clientViewInfo := ⟨200, ""⟩ }, wDB0) :=
  ⟨rfl, by
    simpa using beginSync_no_new_data wDB0 "u" "sid" (fun _ => ⟨0, "", ⟨[]⟩⟩)
      (fun bs => pullClient bs wRespNoNew) [] wSS1 wSS0 ⟨200, ""⟩ rfl rfl rfl rfl⟩

theorem strContains_left (sub t : String) : strContains (sub ++ t) sub := ⟨"", t, rfl⟩

theorem strContains_appendl (p s sub : String) (h : strContains s sub) :
    strContains (p ++ s) sub := by
  rcases h with ⟨a, b, hs⟩
  refine ⟨p ++ a, b, ?_⟩
  rw [hs, ← String.append_assoc, ← String.append_assoc]

theorem strContains_appendr (s q sub : String) (h : strContains s sub) :
    strContains (s ++ q) sub := by
  rcases h with ⟨a, b, hs⟩
  refine ⟨a, b ++ q, ?_⟩
  rw [hs, String.append_assoc]

/-- C5: a patch-application failure, or a checksum that parses but does
not match the checksum computed from applying the patch, makes the
pull — and so `BeginSync` — fail with a message containing "couldn't
apply patch" resp. "checksum mismatch", leaving the database (and so
the head) unchanged. -/
theorem beginSync_pull_integrity_errors (db : DB) (u sid : String)
    (pushF : List LocalMeta → BatchPushInfo) (resp : PullResponse)
    (pending : List Commit) (BS : Commit)
    (hp : pendingCommits db.head = .ok pending)
    (hbs : baseSnapshot db.head = .ok BS)
    (hreg : ¬ resp.lastMutationID < BS.snapLastMutationID) :
    (∀ e, applyPatch BS.data resp.patch = .error e →
      ∃ msg, (beginSync db u sid pushF (fun bs => pullClient bs resp)).1 = .error msg ∧
        strContains msg "couldn't apply patch" ∧
        (beginSync db u sid pushF (fun bs => pullClient bs resp)).2.2 = db) ∧
    (∀ m ck, applyPatch BS.data resp.patch = .ok m →
      checksumFromString resp.checksum = .ok ck →
      mapChecksum m ≠ toHex8 ck →
      ∃ msg, (beginSync db u sid pushF (fun bs => pullClient bs resp)).1 = .error msg ∧
        strContains msg "checksum mismatch" ∧
        (beginSync db u sid pushF (fun bs => pullClient bs resp)).2.2 = db) := by
  constructor
  · intro e hpatch
    have hpc : pullClient BS resp = .error ("couldn't apply patch: " ++ e) := by
      simp [pullClient, hreg, hpatch]
    refine ⟨"pull from " ++ u ++ " failed: " ++ ("couldn't apply patch: " ++ e), ?_, ?_, ?_⟩
    · simp [beginSync, hp, hbs, hpc]
    · exact strContains_appendl _ _ _ (strContains_left "couldn't apply patch" (": " ++ e))
    · simp [beginSync, hp, hbs, hpc]
  · intro m ck hpatch hck hne
    have hpc : pullClient BS resp =
        .error ("checksum mismatch! Expected " ++ toHex8 ck ++ ", got " ++ mapChecksum m) := by
      simp [pullClient, hreg, hpatch, hck, hne]
    refine ⟨"pull from " ++ u ++ " failed: " ++
      ("checksum mismatch! Expected " ++ toHex8 ck ++ ", got " ++ mapChecksum m), ?_, ?_, ?_⟩
    · simp [beginSync, hp, hbs, hpc]
    · exact strContains_appendl _ _ _
        (strContains_appendr _ _ _
          (strContains_appendr _ _ _
            (strContains_appendr (("checksum mismatch" : String) ++ "! Expected ")
              (toHex8 ck) _ (strContains_left "checksum mismatch" "! Expected "))))
    · simp [beginSync, hp, hbs, hpc]

/-- Pull response whose patch removes a missing key (patch failure). -/
def wRespBadPatch : PullResponse :=
  { stateID := "s9", lastMutationID := 0,
    patch := [{ op := "remove", path := "/x", value := "" }],
    checksum := "00000000", clientViewInfo := ⟨200, ""⟩ }

/-- Pull response carrying a checksum that cannot match the patched
map (scenario S7 of the spec). -/
def wRespBadChecksum : PullResponse :=
  { stateID := "s9", lastMutationID := 0, patch := [], checksum := "aaaaaaaa",
    clientViewInfo := ⟨200, ""⟩ }

theorem beginSync_pull_integrity_errors_witness :
    applyPatch wSS1.data wRespBadPatch.patch = .error "cannot remove missing key: x" ∧
    (∃ msg, (beginSync wDB0 "u" "sid" (fun _ => ⟨0, "", ⟨[]⟩⟩)
        (fun bs => pullClient bs wRespBadPatch)).1 = .error msg ∧
      strContains msg "couldn't apply patch" ∧
      (beginSync wDB0 "u" "sid" (fun _ => ⟨0, "", ⟨[]⟩⟩)
        (fun bs => pullClient bs wRespBadPatch)).2.2 = wDB0) ∧
    mapChecksum ([] : KvMap) ≠ toHex8 2863311530 ∧
    (∃ msg, (beginSync wDB0 "u" "sid" (fun _ => ⟨0, "", ⟨[]⟩⟩)
        (fun bs => pullClient bs wRespBadChecksum)).1 = .error msg ∧
      strContains msg "checksum mismatch" ∧
      (beginSync wDB0 "u" "sid" (fun _ => ⟨0, "", ⟨[]⟩⟩)
        (fun bs => pullClient bs wRespBadChecksum)).2.2 = wDB0) :=
  ⟨rfl,
   (beginSync_pull_integrity_errors wDB0 "u" "sid" (fun _ => ⟨0, "", ⟨[]⟩⟩)
      wRespBadPatch [] wSS1 rfl rfl (by decide)).1
     "cannot remove missing key: x" rfl,
   by decide,
   (beginSync_pull_integrity_errors wDB0 "u" "sid" (fun _ => ⟨0, "", ⟨[]⟩⟩)
      wRespBadChecksum [] wSS1 rfl rfl (by decide)).2
     [] 2863311530 rfl rfl (by decide)⟩

/-- `defaultPusher.Push` after building the request: the HTTP outcome
is the `httpResult` argument (transport error, or status code and
body); `decodeResp` is the outcome of decoding a 200 response body.
A transport failure leaves the status code 0 and records
"during request to <url>: <error>"; a non-200 response records its
status code and body; neither is an error. -/
def defaultPush (url : String) (httpResult : Except String (Nat × String))
    (decodeResp : Except String BatchPushResponse) : BatchPushInfo :=
  match httpResult with
  | .error e =>
    { httpStatusCode := 0,
      errorMessage := "during request to " ++ url ++ ": " ++ e,
      batchPushResponse := ⟨[]⟩ }
  | .ok (statusCode, body) =>
    if statusCode = 200 then
      match decodeResp with
      | .error e =>
        { httpStatusCode := 200,
          errorMessage := "during request to " ++ url ++
            ": error decoding batch push response: " ++ e,
          batchPushResponse := ⟨[]⟩ }
      | .ok r => { httpStatusCode := 200, errorMessage := "", batchPushResponse := r }
    else { httpStatusCode := statusCode, errorMessage := body, batchPushResponse := ⟨[]⟩ }

/-- C7: no push outcome makes `BeginSync` fail: the error/sync-head
result and the final database state do not depend on the pusher at
all; when there are pending commits the push outcome is recorded in
`SyncInfo.BatchPushInfo`; the pull is attempted regardless (a pull
failure is reported no matter what the pusher did); and a push
transport failure is recorded with status code 0 and an error
message. -/
theorem beginSync_push_never_fatal (db : DB) (u sid : String)
    (pushF pushF' : List LocalMeta → BatchPushInfo)
    (pullF : Commit → Except String (Commit × ClientViewInfo)) :
    (beginSync db u sid pushF pullF).1 = (beginSync db u sid pushF' pullF).1 ∧
    (beginSync db u sid pushF pullF).2.2 = (beginSync db u sid pushF' pullF).2.2 ∧
    (∀ pending, pendingCommits db.head = .ok pending → pending ≠ [] →
      (beginSync db u sid pushF pullF).2.1.batchPushInfo =
        some (pushF (pending.map Commit.metaLocal))) ∧
    (∀ pending BS e, pendingCommits db.head = .ok pending →
      baseSnapshot db.head = .ok BS → pullF BS = .error e →
      (beginSync db u sid pushF pullF).1 = .error ("pull from " ++ u ++ " failed: " ++ e)) ∧
    (∀ e dec, (defaultPush u (.error e) dec).httpStatusCode = 0 ∧
      (defaultPush u (.error e) dec).errorMessage = "during request to " ++ u ++ ": " ++ e) := by
  have hsame : ∀ (f g : List LocalMeta → BatchPushInfo),
      (beginSync db u sid f pullF).1 = (beginSync db u sid g pullF).1 ∧
      (beginSync db u sid f pullF).2.2 = (beginSync db u sid g pullF).2.2 := by
    intro f g
    cases hpc : pendingCommits db.head with
    | error e => simp [beginSync, hpc]
    | ok pending =>
      cases hbs : baseSnapshot db.head with
      | error e => simp [beginSync, hpc, hbs]
      | ok BS =>
        cases hpl : pullF BS with
        | error e => simp [beginSync, hpc, hbs, hpl]
        | ok pr =>
          obtain ⟨ns, cvi⟩ := pr
          by_cases hns : ns.snapServerStateID = BS.snapServerStateID
          · simp [beginSync, hpc, hbs, hpl, hns]
          · simp [beginSync, hpc, hbs, hpl, hns]
  refine ⟨(hsame pushF pushF').1, (hsame pushF pushF').2, ?_, ?_, ?_⟩
  · intro pending hpc hne
    have hlen : pending.length > 0 := List.length_pos.mpr hne
    cases hbs : baseSnapshot db.head with
    | error e => simp [beginSync, hpc, hbs, hlen]
    | ok BS =>
      cases hpl : pullF BS with
      | error e => simp [beginSync, hpc, hbs, hpl, hlen]
      | ok pr =>
        obtain ⟨ns, cvi⟩ := pr
        by_cases hns : ns.snapServerStateID = BS.snapServerStateID
        · simp [beginSync, hpc, hbs, hpl, hns, hlen]
        · simp [beginSync, hpc, hbs, hpl, hns, hlen]
  · intro pending BS e hpc hbs hpl
    simp [beginSync, hpc, hbs, hpl]
  · intro e dec
    exact ⟨rfl, rfl⟩

/-- Push outcome of a transport failure, as `defaultPusher.Push`
records it. -/
def wPushDown : List LocalMeta → BatchPushInfo :=
  fun _ => defaultPush "p" (.error "connection refused") (.ok ⟨[]⟩)

/-- Push outcome of a non-200 response. -/
def wPushNon200 : List LocalMeta → BatchPushInfo :=
  fun _ => defaultPush "p" (.ok (500, "internal error")) (.ok ⟨[]⟩)

theorem beginSync_push_never_fatal_witness :
    ((beginSync wDB1 "u" "sid" wPushDown (fun _ => .error "boom")).1 =
      (beginSync wDB1 "u" "sid" wPushNon200 (fun _ => .error "boom")).1) ∧
    (beginSync wDB1 "u" "sid" wPushDown (fun _ => .error "boom")).2.1.batchPushInfo =
      some (wPushDown ([wL1].map Commit.metaLocal)) ∧
    (beginSync wDB1 "u" "sid" wPushDown (fun _ => .error "boom")).1 =
      .error ("pull from " ++ "u" ++ " failed: " ++ "boom") ∧
    (defaultPush "u" (.error "connection refused") (.ok ⟨[]⟩)).httpStatusCode = 0 :=
  ⟨(beginSync_push_never_fatal wDB1 "u" "sid" wPushDown wPushNon200
      (fun _ => .error "boom")).1,
   (beginSync_push_never_fatal wDB1 "u" "sid" wPushDown wPushNon200
      (fun _ => .error "boom")).2.2.1 [wL1] rfl (by decide),
   (beginSync_push_never_fatal wDB1 "u" "sid" wPushDown wPushNon200
      (fun _ => .error "boom")).2.2.2.1 [wL1] wSS1 "boom" rfl rfl rfl,
   ((beginSync_push_never_fatal wDB1 "u" "sid" wPushDown wPushNon200
      (fun _ => .error "boom")).2.2.2.2 "connection refused" (.ok ⟨[]⟩)).1⟩

mutual

/-- No commit reachable from `c` is a reorder commit.  This holds for
every state the current code can produce: nothing constructs reorder
commits on the master chain any more. -/
def noReorder : Commit → Bool
  | .mk ps _ _ _ _ _ rs _ _ _ _ =>
    match rs with
    | [] => noReorderAll ps
    | _ :: _ => false

def noReorderAll : List Commit → Bool
  | [] => true
  | p :: ps => noReorder p && noReorderAll ps

end

theorem ancestorList_eq (c : Commit) :
    ancestorList c = c :: ancestorListAll c.parents := by
  cases c with
  | mk ps a b n ar o rs l s dt ck => rfl

theorem noReorder_eq (c : Commit) :
    noReorder c = true ↔ c.reorderSubject = [] ∧ noReorderAll c.parents = true := by
  cases c with
  | mk ps a b n ar o rs l s dt ck =>
    cases rs with
    | nil => simp [noReorder, Commit.reorderSubject, Commit.parents]
    | cons x xs => simp [noReorder, Commit.reorderSubject]

theorem noReorderAll_mem {ps : List Commit} {p : Commit}
    (h : noReorderAll ps = true) (hp : p ∈ ps) : noReorder p = true := by
  induction ps with
  | nil => cases hp
  | cons q qs ih =>
    rw [show noReorderAll (q :: qs) = (noReorder q && noReorderAll qs) from rfl,
      Bool.and_eq_true] at h
    rcases List.mem_cons.mp hp with hpq | hpq
    · subst hpq; exact h.1
    · exact ih h.2 hpq

theorem mem_ancestorListAll {x : Commit} {ps : List Commit} :
    x ∈ ancestorListAll ps ↔ ∃ p ∈ ps, x ∈ ancestorList p := by
  induction ps with
  | nil => simp [ancestorListAll]
  | cons q qs ih =>
    rw [show ancestorListAll (q :: qs) = ancestorList q ++ ancestorListAll qs from rfl]
    simp [List.mem_append, ih]

theorem sizeOf_le_of_mem_ancestorList :
    ∀ (n : Nat) (c : Commit), sizeOf c ≤ n →
      ∀ x ∈ ancestorList c, sizeOf x ≤ sizeOf c := by
  intro n
  induction n with
  | zero =>
    intro c hsz
    have := sizeOf_commit_pos c
    omega
  | succ n ih =>
    intro c hsz x hx
    rw [ancestorList_eq] at hx
    rcases List.mem_cons.mp hx with hxc | hxa
    · subst hxc; exact le_refl _
    · obtain ⟨p, hp, hxp⟩ := mem_ancestorListAll.mp hxa
      have hps : sizeOf p < sizeOf c := Commit.sizeOf_mem_parents hp
      have := ih p (by omega) x hxp
      omega

/-- Under `noReorder`, a commit with a base snapshot has exactly one
parent (its basis) unless it is itself a snapshot. -/
theorem parents_of_noReorder {c BS : Commit}
    (hnr : noReorder c = true) (ht : c.type ≠ CommitType.snapshot)
    (hbs : baseSnapshot c = .ok BS) :
    ∃ p, c.parents = [p] ∧ baseSnapshot p = .ok BS ∧ noReorder p = true := by
  obtain ⟨hrs, hall⟩ := (noReorder_eq c).mp hnr
  rw [baseSnapshot_eq, if_neg ht] at hbs
  cases hb : c.basisE with
  | error e => rw [hb] at hbs; exact absurd hbs (by simp)
  | ok b =>
    rw [hb] at hbs
    have hmem := Commit.basisE_mem_parents hb
    have hnrb : noReorder b = true := noReorderAll_mem hall hmem
    unfold Commit.basisE at hb
    cases hps : c.parents with
    | nil => rw [hps] at hb; exact absurd hb (by simp)
    | cons p tl =>
      cases tl with
      | nil =>
        rw [hps] at hb
        simp only [Except.ok.injEq] at hb
        subst hb
        exact ⟨p, rfl, hbs, hnrb⟩
      | cons q tl2 =>
        cases tl2 with
        | nil =>
          rw [hps, hrs] at hb
          exact absurd hb (by simp)
        | cons r tl3 => rw [hps] at hb; exact absurd hb (by simp)

/-- Every snapshot-typed ancestor of a reorder-free commit is either
its base snapshot or strictly smaller than it. -/
theorem ancestor_snapshot_cases :
    ∀ (n : Nat) (c BS : Commit), sizeOf c ≤ n → noReorder c = true →
      baseSnapshot c = .ok BS →
      ∀ x ∈ ancestorList c, x.type = CommitType.snapshot →
        x = BS ∨ sizeOf x < sizeOf BS := by
  intro n
  induction n with
  | zero =>
    intro c BS hsz
    have := sizeOf_commit_pos c
    omega
  | succ n ih =>
    intro c BS hsz hnr hbs x hx hxt
    rw [ancestorList_eq] at hx
    by_cases ht : c.type = CommitType.snapshot
    · have hc : BS = c := by
        rw [baseSnapshot_eq, if_pos ht] at hbs
        simp only [Except.ok.injEq] at hbs
        exact hbs.symm
      subst hc
      rcases List.mem_cons.mp hx with hxc | hxa
      · exact Or.inl hxc
      · obtain ⟨p, hp, hxp⟩ := mem_ancestorListAll.mp hxa
        have hps : sizeOf p < sizeOf BS := Commit.sizeOf_mem_parents hp
        have := sizeOf_le_of_mem_ancestorList (sizeOf p) p le_rfl x hxp
        exact Or.inr (by omega)
    · rcases List.mem_cons.mp hx with hxc | hxa
      · subst hxc; exact absurd hxt ht
      · obtain ⟨p, hps, hpbs, hpnr⟩ := parents_of_noReorder hnr ht hbs
        rw [hps] at hxa
        obtain ⟨p', hp', hxp⟩ := mem_ancestorListAll.mp hxa
        simp only [List.mem_singleton] at hp'
        rw [hp'] at hxp
        have hplt : sizeOf p < sizeOf c := by
          have hmp : p ∈ c.parents := by rw [hps]; simp
          exact Commit.sizeOf_mem_parents hmp
        exact ih p BS (by omega) hpnr hpbs x hxp hxt

/-- C9: `BeginSync` never changes the master head on any path, and on
success the new snapshot commit is written to the store but is not
reachable from the (unchanged) head — it dangles until `MaybeEndSync`
finalizes it. -/
theorem beginSync_frame (db : DB) (u sid : String)
    (pushF : List LocalMeta → BatchPushInfo) (resp : PullResponse) :
    (∀ pullF, (beginSync db u sid pushF pullF).2.2.head = db.head) ∧
    (∀ SH info db₂, noReorder db.head = true →
      beginSync db u sid pushF (fun bs => pullClient bs resp) = (.ok (some SH), info, db₂) →
      db₂.head = db.head ∧ SH ∈ db₂.written ∧ SH ∉ ancestorList db.head) := by
  constructor
  · intro pullF
    cases hpc : pendingCommits db.head with
    | error e => simp [beginSync, hpc]
    | ok pending =>
      cases hbs : baseSnapshot db.head with
      | error e => simp [beginSync, hpc, hbs]
      | ok BS =>
        cases hpl : pullF BS with
        | error e => simp [beginSync, hpc, hbs, hpl]
        | ok pr =>
          obtain ⟨ns, cvi⟩ := pr
          by_cases hns : ns.snapServerStateID = BS.snapServerStateID
          · simp [beginSync, hpc, hbs, hpl, hns]
          · simp [beginSync, hpc, hbs, hpl, hns]
  · intro SH info db₂ hnr h
    cases hpc : pendingCommits db.head with
    | error e => simp [beginSync, hpc] at h
    | ok pending =>
      cases hbs : baseSnapshot db.head with
      | error e => simp [beginSync, hpc, hbs] at h
      | ok BS =>
        cases hpl : pullClient BS resp with
        | error e => simp [beginSync, hpc, hbs, hpl] at h
        | ok pr =>
          obtain ⟨ns, cvi⟩ := pr
          by_cases hns : ns.snapServerStateID = BS.snapServerStateID
          · simp [beginSync, hpc, hbs, hpl, hns] at h
          · simp only [beginSync, hpc, hbs, hpl, hns, if_neg, ite_false] at h
            rw [Prod.ext_iff, Prod.ext_iff] at h
            obtain ⟨hsh, hinfo, hdb⟩ := h
            simp only [Except.ok.injEq, Option.some.injEq] at hsh
            subst hsh
            subst hdb
            refine ⟨rfl, by simp, ?_⟩
            obtain ⟨pm, hnseq⟩ : ∃ pm, ns = makeSnapshot BS resp.stateID pm (mapChecksum pm)
                resp.lastMutationID := by
              unfold pullClient at hpl
              split at hpl
              · exact absurd hpl (by simp)
              · split at hpl
                · exact absurd hpl (by simp)
                · split at hpl
                  · exact absurd hpl (by simp)
                  · split at hpl
                    · exact absurd hpl (by simp)
                    · simp only [Except.ok.injEq, Prod.mk.injEq] at hpl
                      exact ⟨_, hpl.1.symm⟩
            intro hmem
            have hxt : ns.type = CommitType.snapshot := by
              rw [hnseq]; rfl
            rcases ancestor_snapshot_cases (sizeOf db.head) db.head BS le_rfl hnr hbs
                ns hmem hxt with hcase | hcase
            · have hbsp : BS ∈ BS.parents := by
                have : ns.parents = [BS] := by rw [hnseq]; rfl
                rw [hcase] at this
                rw [this]
                simp
              have := Commit.sizeOf_mem_parents hbsp
              omega
            · have : sizeOf BS < sizeOf ns := by
                rw [hnseq]
                simp only [makeSnapshot, Commit.mk.sizeOf_spec, List.cons.sizeOf_spec,
                  List.nil.sizeOf_spec]
                omega
              omega

theorem beginSync_frame_witness :
    noReorder wDB1.head = true ∧
    ((beginSync wDB1 "u" "sid" wPushDown (fun bs => pullClient bs wResp)).2.2.head = wDB1.head ∧
     wSS2 ∈ (beginSync wDB1 "u" "sid" wPushDown (fun bs => pullClient bs wResp)).2.2.written ∧
     wSS2 ∉ ancestorList wDB1.head) :=
  ⟨rfl,
   (beginSync_frame wDB1 "u" "sid" wPushDown wResp).2 wSS2
     { syncID := "sid", batchPushInfo := some (wPushDown ([wL1].map Commit.metaLocal)),
       clientViewInfo := ⟨200, ""⟩ }
     { head := wL1, written := wSS2 :: [wSS1, wL1, wSS2] } rfl rfl⟩

/- Transaction layer (transaction source file) and the dispatch layer
of the repm connection (commitTransaction handling). -/

/-- Error kinds of `Transaction.Commit`: `ErrClosed`, a `CommitError`
(fast-forward failure), or a replay-validation error. -/
inductive TxError : Type where
  | errClosed
  | commitError (msg : String)
  | replayError (msg : String)
deriving DecidableEq

/-- `db.Transaction`: basis commit, the `kv.MapEditor` state (the
edited map), the wrote/closed flags, mutation name and args, and the
original commit for replay transactions. -/
structure Transaction where
  basis : Commit
  me : KvMap
  wrote : Bool
  closed : Bool
  name : String
  args : NomsValue
  original : Option Commit
deriving DecidableEq

/-- `DB.NewTransaction`. -/
def newTransaction (db : DB) : Transaction :=
  { basis := db.head, me := db.head.data, wrote := false, closed := false,
    name := "", args := "null", original := none }

/-- `DB.NewTransactionWithArgs`: basis defaults to the head unless a
replay basis is supplied. -/
def newTransactionWithArgs (db : DB) (name : String) (args : NomsValue)
    (basis original : Option Commit) : Transaction :=
  let head := basis.getD db.head
  { basis := head, me := head.data, wrote := false, closed := false,
    name := name, args := args, original := original }

def kvLookup (m : KvMap) (k : String) : Option String :=
  (m.find? (fun e => e.1 == k)).map (fun e => e.2)

/-- `Transaction.Has`. -/
def Transaction.has (tx : Transaction) (id : String) : Except TxError Bool :=
  if tx.closed then .error .errClosed else .ok (kvHasKey tx.me id)

/-- `Transaction.Get`. -/
def Transaction.get (tx : Transaction) (id : String) : Except TxError (Option String) :=
  if tx.closed then .error .errClosed else .ok (kvLookup tx.me id)

/-- `Transaction.Put` (the JSON value is already canonical in this
model, so parsing cannot fail). -/
def Transaction.put (tx : Transaction) (id : String) (json : NomsValue) :
    Except TxError Unit × Transaction :=
  if tx.closed then (.error .errClosed, tx)
  else (.ok (), { tx with me := kvSet tx.me id json, wrote := true })

/-- `Transaction.Del`: report whether the key existed; only then
remove it and mark the transaction as having written. -/
def Transaction.del (tx : Transaction) (id : String) :
    Except TxError Bool × Transaction :=
  if tx.closed then (.error .errClosed, tx)
  else
    let ok := kvHasKey tx.me id
    if ok then (.ok true, { tx with me := kvRemove tx.me id, wrote := true })
    else (.ok false, tx)

/-- `DB.setHead` via `noms.FastForward`; the fast-forward rule (§4.2):
it succeeds only when the current head is an ancestor of the new
head. -/
def setHead (db : DB) (newHead : Commit) : Except String DB :=
  if db.head ∈ ancestorList newHead then .ok { db with head := newHead }
  else .error "merge needed"

/-- `ValidateReplayParams`. -/
def validateReplayParams (original : Commit) (name : String) (args : NomsValue)
    (mutationID : Nat) : Except String Unit :=
  if original.type ≠ CommitType.local_ then
    .error "only local mutations can be replayed"
  else if name ≠ original.localName then
    .error "invalid replay: Names do not match"
  else if args ≠ original.localArgs then
    .error "invalid replay: Args do not match"
  else if mutationID ≠ original.localMutationID then
    .error "invalid replay: MutationID values do not match"
  else .ok ()

/-- `Transaction.Commit`: close the transaction; a transaction that
never wrote is a no-op returning a zero ref; a replay commit is
validated and written without touching the head; a non-replay commit
is written and the head fast-forwarded, a fast-forward failure being
reported as a `CommitError` with a zero ref and no head change. -/
def Transaction.commit (db : DB) (tx : Transaction) (dt : Nat) :
    Except TxError (Option Commit) × DB × Transaction :=
  if tx.closed then (.error .errClosed, db, tx)
  else
    let tx' := { tx with closed := true }
    if ¬ tx.wrote then (.ok none, db, tx')
    else
      let newMap := tx.me
      let newDataChecksum := mapChecksum newMap
      match tx.original with
      | some original =>
        match validateReplayParams original tx.name tx.args tx.basis.nextMutationID with
        | .error e => (.error (.replayError e), db, tx')
        | .ok _ =>
          let c := makeReplayedLocal tx.basis dt tx.basis.nextMutationID tx.name tx.args
            newMap newDataChecksum original
          (.ok (some c), { db with written := c :: db.written }, tx')
      | none =>
        let c := makeLocal tx.basis dt tx.basis.nextMutationID tx.name tx.args
          newMap newDataChecksum
        let db₁ := { db with written := c :: db.written }
        match setHead db₁ c with
        | .ok db₂ => (.ok (some c), db₂, tx')
        | .error e => (.error (.commitError e), db₁, tx')

/-- Per-database connection state of the dispatch layer. -/
structure Connection where
  db : DB
  transactions : List (Nat × Transaction)
  transactionCounter : Nat

/-- `connection.findTransaction`. -/
def findTransaction (conn : Connection) (txID : Nat) : Except String Transaction :=
  if txID = 0 then .error "Missing transaction ID"
  else
    match conn.transactions.find? (fun e => e.1 == txID) with
    | some e => .ok e.2
    | none => .error ("Invalid transaction ID: " ++ toString txID)

/-- `connection.removeTransaction`. -/
def removeTransaction (conn : Connection) (txID : Nat) : Connection :=
  { conn with transactions := conn.transactions.filter (fun e => e.1 != txID) }

structure CommitTransactionResponse where
  ref : Option Commit
  retryCommit : Bool
deriving DecidableEq

/-- `dispatchCommitTransaction`: find and remove the transaction, run
its commit, answer `{ref}` on success, `{retryCommit: true}` exactly
when the error is a `CommitError`, and propagate other errors. -/
def dispatchCommitTransaction (conn : Connection) (txID : Nat) (dt : Nat) :
    Except String CommitTransactionResponse × Connection :=
  match findTransaction conn txID with
  | .error e => (.error e, conn)
  | .ok tx =>
    let conn1 := removeTransaction conn txID
    match Transaction.commit conn1.db tx dt with
    | (.ok r, db', _) =>
      (.ok { ref := r, retryCommit := false }, { conn1 with db := db' })
    | (.error (.commitError _), db', _) =>
      (.ok { ref := none, retryCommit := true }, { conn1 with db := db' })
    | (.error .errClosed, db', _) =>
      (.error "Transaction is closed", { conn1 with db := db' })
    | (.error (.replayError e), db', _) => (.error e, { conn1 with db := db' })

/-- C6: a non-replay write transaction whose fast-forward fails (the
head moved away from its basis) gets a `CommitError` and a zero ref,
the head does not change, and the dispatch layer answers the
commitTransaction request with `{retryCommit: true}` instead of a
ref. -/
theorem commit_conflict_retry (conn : Connection) (txID dt : Nat) (tx : Transaction)
    (hfind : findTransaction conn txID = .ok tx)
    (hopen : tx.closed = false)
    (hwrote : tx.wrote = true)
    (hnonreplay : tx.original = none)
    (hff : conn.db.head ∉ ancestorList
      (makeLocal tx.basis dt tx.basis.nextMutationID tx.name tx.args tx.me
        (mapChecksum tx.me))) :
    (Transaction.commit conn.db tx dt).1 = .error (.commitError "merge needed") ∧
    (Transaction.commit conn.db tx dt).2.1.head = conn.db.head ∧
    dispatchCommitTransaction conn txID dt =
      (.ok { ref := none, retryCommit := true },
       { removeTransaction conn txID with db := (Transaction.commit conn.db tx dt).2.1 }) := by
  have hcommit : Transaction.commit conn.db tx dt =
      (.error (.commitError "merge needed"),
       { head := conn.db.head,
         written := (makeLocal tx.basis dt tx.basis.nextMutationID tx.name tx.args tx.me
           (mapChecksum tx.me)) :: conn.db.written },
       { tx with closed := true }) := by
    simp [Transaction.commit, hopen, hwrote, hnonreplay, setHead, hff]
  refine ⟨by rw [hcommit], by rw [hcommit], ?_⟩
  have hdb1 : (removeTransaction conn txID).db = conn.db := rfl
  simp [dispatchCommitTransaction, hfind, hdb1, hcommit]

/-- A write transaction opened when the head was the genesis snapshot,
committed after a conflicting local commit advanced the head. -/
def wTxConflict : Transaction :=
  { basis := wSS1, me := [("a", "1")], wrote := true, closed := false,
    name := "m2", args := "[]", original := none }

def wConn : Connection :=
  { db := { head := wL1, written := [wSS1, wL1] },
    transactions := [(1, wTxConflict)], transactionCounter := 2 }

theorem commit_conflict_retry_witness :
    findTransaction wConn 1 = .ok wTxConflict ∧
    ((Transaction.commit wConn.db wTxConflict 5).1 = .error (.commitError "merge needed") ∧
     (Transaction.commit wConn.db wTxConflict 5).2.1.head = wConn.db.head ∧
     dispatchCommitTransaction wConn 1 5 =
       (.ok { ref := none, retryCommit := true },
        { removeTransaction wConn 1 with db := (Transaction.commit wConn.db wTxConflict 5).2.1 })) :=
  ⟨rfl, commit_conflict_retry wConn 1 5 wTxConflict rfl rfl rfl rfl (by decide)⟩

/-- C10: deleting a key absent from the transaction's edit map returns
`false` without marking the transaction as having written; a
transaction that never wrote commits as a no-op: zero ref, no error,
no new commit written, head unchanged. -/
theorem del_absent_commit_noop (db : DB) (tx : Transaction) (k : String) (dt : Nat)
    (hopen : tx.closed = false)
    (habsent : kvHasKey tx.me k = false) :
    Transaction.del tx k = (.ok false, tx) ∧
    (tx.wrote = false →
      Transaction.commit db tx dt = (.ok none, db, { tx with closed := true })) := by
  constructor
  · simp [Transaction.del, hopen, habsent]
  · intro hwrote
    simp [Transaction.commit, hopen, hwrote]

theorem del_absent_commit_noop_witness :
    kvHasKey (newTransaction wDB1).me "zzz" = false ∧
    (Transaction.del (newTransaction wDB1) "zzz" = (.ok false, newTransaction wDB1) ∧
     (newTransaction wDB1).wrote = false ∧
     Transaction.commit wDB1 (newTransaction wDB1) 7 =
       (.ok none, wDB1, { newTransaction wDB1 with closed := true })) :=
  ⟨rfl,
   (del_absent_commit_noop wDB1 (newTransaction wDB1) "zzz" 7 rfl rfl).1,
   rfl,
   (del_absent_commit_noop wDB1 (newTransaction wDB1) "zzz" 7 rfl rfl).2 rfl⟩

/- Keyspace scan (scan source file).  The noms `types.Map` iterators
(`Iterator`, `IteratorFrom`, `IteratorAt`) are modelled as indices into
the ordered entry list: `IteratorFrom k` is the first position whose
key is ≥ k, `IteratorAt i` is position i, validity is being inside the
list. -/

structure ScanID where
  value : String
  exclusive : Bool
deriving DecidableEq

structure ScanBound where
  id : Option ScanID
  index : Option Nat
deriving DecidableEq

/-- `db.ScanOptions`; the first field is called `Prefix` in the
source, which is not a usable identifier here. -/
structure ScanOptions where
  pfx : String
  start : Option ScanBound
  limit : Int
deriving DecidableEq

structure ScanItem where
  id : String
  value : String
deriving DecidableEq

/-- `strings.HasPrefix` over the character lists. -/
def chListHasPfx : List Char → List Char → Bool
  | [], _ => true
  | _ :: _, [] => false
  | c :: cs, d :: ds => c == d && chListHasPfx cs ds

def strHasPfx (s p : String) : Bool := chListHasPfx p.data s.data

/-- `Map.IteratorFrom k`: index of the first entry with key ≥ k. -/
def iterFrom (data : KvMap) (k : String) : Nat :=
  (data.takeWhile (fun e => strLt e.1 k)).length

/-- Key at an iterator position (meaningful while the position is
valid, i.e. inside the list). -/
def iterKey (data : KvMap) (i : Nat) : String :=
  ((data[i]?).map Prod.fst).getD ""

/-- The `updateIter` closure of `scan`: keep whichever of the current
iterator and the candidate is further along, where an iterator at the
end beats everything. -/
def updateIter (data : KvMap) (it : Option Nat) (cand : Nat) : Option Nat :=
  match it with
  | none => some cand
  | some i =>
    if ¬ i < data.length then some i
    else if ¬ cand < data.length then some cand
    else if strLt (iterKey data i) (iterKey data cand) then some cand
    else some i

/-- The iteration loop of `scan`: stop at end of map, at the first key
without the prefix (when a prefix is set), or once `limit` items have
been collected. -/
def scanLoop (pfx : String) (lim : Int) :
    List (String × String) → List ScanItem → List ScanItem
  | [], res => res
  | (k, v) :: rest, res =>
    if pfx ≠ "" ∧ ¬ strHasPfx k pfx then res
    else
      let res' := res ++ [⟨k, v⟩]
      if (res'.length : Int) = lim then res'
      else scanLoop pfx lim rest res'

/-- `scan`: build the iteration base from the prefix cursor, the
(possibly exclusive) start-id cursor, and the start-index cursor, then
iterate; a missing limit (0) defaults to 50. -/
def scan (data : KvMap) (opts : ScanOptions) : List ScanItem :=
  let it1 : Option Nat :=
    if opts.pfx ≠ "" then updateIter data none (iterFrom data opts.pfx) else none
  let it2 : Option Nat :=
    match opts.start with
    | none => it1
    | some st =>
      let itA :=
        match st.id with
        | none => it1
        | some sid =>
          if sid.value ≠ "" then
            let i := iterFrom data sid.value
            let i' := if sid.exclusive ∧ i < data.length ∧ iterKey data i = sid.value
                      then i + 1 else i
            updateIter data it1 i'
          else it1
      match st.index with
      | none => itA
      | some ix => updateIter data itA ix
  let it3 := it2.getD 0
  let lim : Int := if opts.limit = 0 then 50 else opts.limit
  scanLoop opts.pfx lim (data.drop it3) []

/-- The scan contract as the spec words it: a key continues the scan
when no prefix is set or it has the prefix... -/
def scanMatches (pfx : String) (k : String) : Bool :=
  (pfx == "") || strHasPfx k pfx

/-- The scan contract as the spec words it (§4.1): collect the cursor
positions demanded by `prefix`, `start.id` (exclusive if flagged) and
`start.index`; begin at the maximum; stop at end of map, after `limit`
items (50 when none given), or at the first key without the prefix. -/
def scanSpecFn (data : KvMap) (opts : ScanOptions) : List ScanItem :=
  let cursors : List Nat :=
    (if opts.pfx ≠ "" then [iterFrom data opts.pfx] else []) ++
    (match opts.start with
     | none => []
     | some st =>
       (match st.id with
        | none => []
        | some sid =>
          if sid.value ≠ "" then
            [if sid.exclusive ∧ iterFrom data sid.value < data.length ∧
                iterKey data (iterFrom data sid.value) = sid.value
             then iterFrom data sid.value + 1 else iterFrom data sid.value]
          else []) ++
       (match st.index with
        | none => []
        | some ix => [ix]))
  let base := cursors.foldl max 0
  let limN := (if opts.limit = 0 then (50 : Int) else opts.limit).toNat
  (((data.drop base).takeWhile (fun e => scanMatches opts.pfx e.1)).take limN).map
    (fun e => ⟨e.1, e.2⟩)

theorem chLt_irrefl : ∀ l : List Char, chLt l l = false := by
  intro l
  induction l with
  | nil => rfl
  | cons c cs ih => simp [chLt, lt_irrefl, ih]

theorem chLt_asymm : ∀ (a b : List Char), chLt a b = true → chLt b a = false := by
  intro a
  induction a with
  | nil =>
    intro b h
    cases b with
    | nil => exact absurd h (by simp [chLt])
    | cons d ds => rfl
  | cons c cs ih =>
    intro b h
    cases b with
    | nil => exact absurd h (by simp [chLt])
    | cons d ds =>
      rcases lt_trichotomy c d with h1 | h1 | h1
      · have h2 : ¬ d < c := lt_asymm h1
        simp [chLt, h1, h2]
      · subst h1
        simp only [chLt, lt_irrefl, if_false] at h ⊢
        exact ih ds h
      · have h2 : ¬ c < d := lt_asymm h1
        simp [chLt, h1, h2] at h

theorem strLt_irrefl (a : String) : strLt a a = false := chLt_irrefl _

theorem strLt_asymm {a b : String} (h : strLt a b = true) : strLt b a = false :=
  chLt_asymm _ _ h

theorem iterKey_eq_get {data : KvMap} {i : Nat} (h : i < data.length) :
    iterKey data i = (data.get ⟨i, h⟩).1 := by
  simp [iterKey, List.getElem?_eq_getElem h]

theorem iterKey_lt_of_lt {data : KvMap}
    (hs : List.Pairwise (fun a b => strLt a.1 b.1 = true) data)
    {i j : Nat} (hi : i < data.length) (hj : j < data.length) (hij : i < j) :
    strLt (iterKey data i) (iterKey data j) = true := by
  rw [iterKey_eq_get hi, iterKey_eq_get hj]
  exact List.pairwise_iff_get.mp hs ⟨i, hi⟩ ⟨j, hj⟩ hij

theorem iterKey_lt_iff {data : KvMap}
    (hs : List.Pairwise (fun a b => strLt a.1 b.1 = true) data)
    {i j : Nat} (hi : i < data.length) (hj : j < data.length) :
    strLt (iterKey data i) (iterKey data j) = true ↔ i < j := by
  constructor
  · intro hk
    by_contra hn
    push_neg at hn
    rcases Nat.lt_or_ge j i with hji | hji
    · have := iterKey_lt_of_lt hs hj hi hji
      have := strLt_asymm this
      rw [this] at hk
      cases hk
    · have : j = i := by omega
      subst this
      rw [strLt_irrefl] at hk
      cases hk
  · exact iterKey_lt_of_lt hs hi hj

theorem scanLoop_eq (pfx : String) (lim : Int) :
    ∀ (entries : List (String × String)) (res : List ScanItem),
      (res.length : Int) < lim →
      scanLoop pfx lim entries res =
        res ++ ((entries.takeWhile (fun e => scanMatches pfx e.1)).take
          (lim - res.length).toNat).map (fun e => ⟨e.1, e.2⟩) := by
  intro entries
  induction entries with
  | nil => intro res hres; simp [scanLoop]
  | cons e rest ih =>
    intro res hres
    obtain ⟨k, v⟩ := e
    by_cases hb : pfx ≠ "" ∧ ¬ strHasPfx k pfx
    · have hm : scanMatches pfx k = false := by
        obtain ⟨h1, h2⟩ := hb
        simp only [scanMatches, Bool.or_eq_false_iff]
        constructor
        · simpa using h1
        · simpa using h2
      simp [scanLoop, hb, hm]
    · have hm : scanMatches pfx k = true := by
        rcases not_and_or.mp hb with h1 | h2
        · push_neg at h1
          simp [scanMatches, h1]
        · push_neg at h2
          simp [scanMatches, h2]
      by_cases hl : ((res ++ [(⟨k, v⟩ : ScanItem)]).length : Int) = lim
      · have hn : (lim - res.length).toNat = 1 := by
          simp only [List.length_append, List.length_singleton] at hl
          omega
        simp only [scanLoop, hb, if_false, hl, if_true, List.takeWhile_cons, hm]
        rw [hn]
        simp
      · have hlen : ((res ++ [(⟨k, v⟩ : ScanItem)]).length : Int) < lim := by
          simp only [List.length_append, List.length_singleton] at hl ⊢
          omega
        have := ih (res ++ [⟨k, v⟩]) hlen
        simp only [scanLoop, hb, if_false, hl, if_true]
        rw [this]
        have hn : (lim - res.length).toNat =
            (lim - (res ++ [(⟨k, v⟩ : ScanItem)]).length).toNat + 1 := by
          simp only [List.length_append, List.length_singleton]
          omega
        rw [List.takeWhile_cons, hm]
        simp only [if_true]
        rw [hn]
        simp [List.append_assoc]

/-- The iterator equals the running maximum of the candidates seen so
far, except that once past the end of the list both the iterator and
the maximum are past the end (and then both yield nothing). -/
def IterMax (data : KvMap) (it : Option Nat) (m : Nat) : Prop :=
  ∃ j, it = some j ∧ (j = m ∨ (data.length ≤ j ∧ data.length ≤ m))

theorem updateIter_none (data : KvMap) (c : Nat) : updateIter data none c = some c := rfl

theorem updateIter_some (data : KvMap) (j c : Nat) :
    updateIter data (some j) c =
      if ¬ j < data.length then some j
      else if ¬ c < data.length then some c
      else if strLt (iterKey data j) (iterKey data c) then some c
      else some j := rfl

theorem iterMax_some (data : KvMap) (c : Nat) : IterMax data (some c) c :=
  ⟨c, rfl, Or.inl rfl⟩

theorem iterMax_chain {data : KvMap}
    (hs : List.Pairwise (fun a b => strLt a.1 b.1 = true) data)
    {it : Option Nat} {m : Nat} (h : IterMax data it m) (c : Nat) :
    IterMax data (updateIter data it c) (max m c) := by
  obtain ⟨j, hit, hj⟩ := h
  subst hit
  rcases hj with rfl | ⟨hlj, hlm⟩
  · by_cases h1 : j < data.length
    · by_cases h2 : c < data.length
      · by_cases h3 : strLt (iterKey data j) (iterKey data c) = true
        · have hmc : j < c := (iterKey_lt_iff hs h1 h2).mp h3
          refine ⟨c, ?_, Or.inl (by omega)⟩
          rw [updateIter_some, if_neg (not_not_intro h1), if_neg (not_not_intro h2), if_pos h3]
        · have hcm : c ≤ j := by
            by_contra hh
            push_neg at hh
            exact h3 ((iterKey_lt_iff hs h1 h2).mpr hh)
          refine ⟨j, ?_, Or.inl (by omega)⟩
          rw [updateIter_some, if_neg (not_not_intro h1), if_neg (not_not_intro h2), if_neg h3]
      · refine ⟨c, ?_, Or.inl (by omega)⟩
        rw [updateIter_some, if_neg (not_not_intro h1), if_pos h2]
    · refine ⟨j, ?_, Or.inr ⟨by omega, by omega⟩⟩
      rw [updateIter_some, if_pos h1]
  · have h1 : ¬ j < data.length := by omega
    refine ⟨j, ?_, Or.inr ⟨hlj, by omega⟩⟩
    rw [updateIter_some, if_pos h1]

theorem iterMax_drop {data : KvMap} {it : Option Nat} {m : Nat}
    (h : IterMax data it m) :
    data.drop (it.getD 0) = data.drop m := by
  obtain ⟨j, hit, hj⟩ := h
  subst hit
  simp only [Option.getD_some]
  rcases hj with rfl | ⟨h1, h2⟩
  · rfl
  · rw [List.drop_eq_nil_of_le h1, List.drop_eq_nil_of_le h2]

theorem scan_leaf (data : KvMap) (pfx : String) (lim : Int) (it2 : Option Nat) (m : Nat)
    (hIM : IterMax data it2 m)
    (hpos : ((([] : List ScanItem).length : Int)) < lim) :
    scanLoop pfx lim (data.drop (it2.getD 0)) [] =
      (((data.drop m).takeWhile (fun e => scanMatches pfx e.1)).take lim.toNat).map
        (fun e => ⟨e.1, e.2⟩) := by
  rw [iterMax_drop hIM, scanLoop_eq _ _ _ _ hpos]
  simp

/-- C8: over a sorted keyspace (noms maps are ordered) and a
non-negative limit, `scan` produces exactly what the spec's contract
describes (`scanSpecFn`): begin at the furthest of the prefix,
start-id (exclusive if flagged) and start-index cursors — so past the
end nothing is yielded — and emit consecutive entries until end of
map, until `limit` items (50 when none is given), or until the first
key without the prefix. -/
theorem scan_eq_scanSpecFn (data : KvMap) (opts : ScanOptions)
    (hs : List.Pairwise (fun a b => strLt a.1 b.1 = true) data)
    (hlim : 0 ≤ opts.limit) :
    scan data opts = scanSpecFn data opts := by
  obtain ⟨pfx, start, limit⟩ := opts
  simp only at hlim
  have hpos : ((([] : List ScanItem).length : Int)) < (if limit = 0 then 50 else limit) := by
    by_cases h : limit = 0
    · simp [h]
    · simp only [h, if_false, List.length_nil, Int.ofNat_zero]
      omega
  cases start with
  | none =>
    by_cases hp : pfx = ""
    · simp only [scan, scanSpecFn, hp, ne_eq, not_true_eq_false, ite_false, Option.getD_none]
      rw [scanLoop_eq _ _ _ _ hpos]
      simp
    · have hIM := iterMax_some data (iterFrom data pfx)
      simp only [scan, scanSpecFn, hp, ne_eq, not_false_eq_true, ite_true, updateIter_none]
      refine (scan_leaf _ _ _ _ _ hIM hpos).trans ?_
      simp [Nat.zero_max]
  | some st =>
    obtain ⟨sid, ix⟩ := st
    cases sid with
    | none =>
      cases ix with
      | none =>
        by_cases hp : pfx = ""
        · simp only [scan, scanSpecFn, hp, ne_eq, not_true_eq_false, ite_false,
            Option.getD_none]
          rw [scanLoop_eq _ _ _ _ hpos]
          simp
        · have hIM := iterMax_some data (iterFrom data pfx)
          simp only [scan, scanSpecFn, hp, ne_eq, not_false_eq_true, ite_true, updateIter_none]
          refine (scan_leaf _ _ _ _ _ hIM hpos).trans ?_
          simp [Nat.zero_max]
      | some ixv =>
        by_cases hp : pfx = ""
        · have hIM := iterMax_some data ixv
          simp only [scan, scanSpecFn, hp, ne_eq, not_true_eq_false, ite_false, updateIter_none]
          refine (scan_leaf _ _ _ _ _ hIM hpos).trans ?_
          simp [Nat.zero_max]
        · have hIM := iterMax_chain hs (iterMax_some data (iterFrom data pfx)) ixv
          simp only [scan, scanSpecFn, hp, ne_eq, not_false_eq_true, ite_true, updateIter_none]
          refine (scan_leaf _ _ _ _ _ hIM hpos).trans ?_
          simp [Nat.zero_max]
    | some sidv =>
      by_cases hv : sidv.value = ""
      · cases ix with
        | none =>
          by_cases hp : pfx = ""
          · simp only [scan, scanSpecFn, hp, hv, ne_eq, not_true_eq_false, ite_false,
              Option.getD_none]
            rw [scanLoop_eq _ _ _ _ hpos]
            simp
          · have hIM := iterMax_some data (iterFrom data pfx)
            simp only [scan, scanSpecFn, hp, hv, ne_eq, not_false_eq_true, not_true_eq_false,
              ite_true, ite_false, updateIter_none]
            refine (scan_leaf _ _ _ _ _ hIM hpos).trans ?_
            simp [Nat.zero_max]
        | some ixv =>
          by_cases hp : pfx = ""
          · have hIM := iterMax_some data ixv
            simp only [scan, scanSpecFn, hp, hv, ne_eq, not_true_eq_false, ite_false,
              updateIter_none]
            refine (scan_leaf _ _ _ _ _ hIM hpos).trans ?_
            simp [Nat.zero_max]
          · have hIM := iterMax_chain hs (iterMax_some data (iterFrom data pfx)) ixv
            simp only [scan, scanSpecFn, hp, hv, ne_eq, not_false_eq_true, not_true_eq_false,
              ite_true, ite_false, updateIter_none]
            refine (scan_leaf _ _ _ _ _ hIM hpos).trans ?_
            simp [Nat.zero_max]
      · cases ix with
        | none =>
          by_cases hp : pfx = ""
          · have hIM := iterMax_some data
              (if sidv.exclusive ∧ iterFrom data sidv.value < data.length ∧
                  iterKey data (iterFrom data sidv.value) = sidv.value
               then iterFrom data sidv.value + 1 else iterFrom data sidv.value)
            simp only [scan, scanSpecFn, hp, hv, ne_eq, not_true_eq_false, not_false_eq_true,
              ite_false, ite_true, updateIter_none]
            refine (scan_leaf _ _ _ _ _ hIM hpos).trans ?_
            simp [Nat.zero_max]
          · have hIM := iterMax_chain hs (iterMax_some data (iterFrom data pfx))
              (if sidv.exclusive ∧ iterFrom data sidv.value < data.length ∧
                  iterKey data (iterFrom data sidv.value) = sidv.value
               then iterFrom data sidv.value + 1 else iterFrom data sidv.value)
            simp only [scan, scanSpecFn, hp, hv, ne_eq, not_false_eq_true, ite_true,
              updateIter_none]
            refine (scan_leaf _ _ _ _ _ hIM hpos).trans ?_
            simp [Nat.zero_max]
        | some ixv =>
          by_cases hp : pfx = ""
          · have hIM := iterMax_chain hs (iterMax_some data
              (if sidv.exclusive ∧ iterFrom data sidv.value < data.length ∧
                  iterKey data (iterFrom data sidv.value) = sidv.value
               then iterFrom data sidv.value + 1 else iterFrom data sidv.value)) ixv
            simp only [scan, scanSpecFn, hp, hv, ne_eq, not_true_eq_false, not_false_eq_true,
              ite_false, ite_true, updateIter_none]
            refine (scan_leaf _ _ _ _ _ hIM hpos).trans ?_
            simp [Nat.zero_max]
          · have hIM := iterMax_chain hs (iterMax_chain hs
              (iterMax_some data (iterFrom data pfx))
              (if sidv.exclusive ∧ iterFrom data sidv.value < data.length ∧
                  iterKey data (iterFrom data sidv.value) = sidv.value
               then iterFrom data sidv.value + 1 else iterFrom data sidv.value)) ixv
            simp only [scan, scanSpecFn, hp, hv, ne_eq, not_false_eq_true, ite_true,
              updateIter_none]
            refine (scan_leaf _ _ _ _ _ hIM hpos).trans ?_
            simp [Nat.zero_max]

def wData : KvMap := [("a", "1"), ("ab", "2"), ("b", "3")]

def wOpts : ScanOptions :=
  { pfx := "a", start := some { id := some { value := "a", exclusive := true }, index := none },
    limit := 0 }

theorem scan_eq_scanSpecFn_witness :
    List.Pairwise (fun a b => strLt a.1 b.1 = true) wData ∧ 0 ≤ wOpts.limit ∧
    scan wData wOpts = scanSpecFn wData wOpts ∧
    scan wData wOpts = [⟨"ab", "2"⟩] :=
  ⟨by decide, by decide, scan_eq_scanSpecFn wData wOpts (by decide) (by decide), by decide⟩
